/-
  Verification of the upload controller of the lolisafe repository
  (src/controllers/uploadController.js) against its specification.

  The JavaScript source is shallowly embedded: every definition below
  translates one function or code fragment of the source file (the
  corresponding symbol and behaviour are named in each doc comment).
  External collaborators that are not part of the sources (utilsController,
  the search-query-parser npm package) are modelled at their boundary,
  marked `Modelled from the spec:`.
-/
import Mathlib

namespace Upload

/-! ## Generic JavaScript string helpers used by the controller -/

/-- Model of `String.prototype.toLowerCase` restricted to ASCII, which is the
only alphabet appearing in the configured extension lists and filter keywords
handled by the controller. -/
def charLower (c : Char) : Char :=
  if 'A' ≤ c && c ≤ 'Z' then Char.ofNat (c.toNat + 32) else c

/-- JS `s.toLowerCase()` (ASCII model). -/
def jsToLower (s : String) : String := String.mk (s.data.map charLower)

/-! ## Configuration (the parts of `config` read by uploadController.js) -/

/-- The configuration fields consulted by the embedded code paths.
`maxSize` is `parseInt(config.uploads.maxSize)`. -/
structure Config where
  filterNoExtension : Bool
  extensionsFilter : List String
  extensionsFilterMode : String
  filterEmptyFile : Bool
  temporaryUploadAges : List ℚ
  cacheFileIdentifiers : Bool
  storeIP : Bool
  domain : String
  maxSize : ℕ

/-- `const maxSizeBytes = maxSize * 1e6` (uploadController.js line 23). -/
def maxSizeBytes (cfg : Config) : ℕ := cfg.maxSize * 1000000

/-- `const maxChunksCount = maxSize` (line 31): hard-coded 1 MB minimum chunk
size, so the maximum number of chunks equals the size limit in MB. -/
def maxChunksCount (cfg : Config) : ℕ := cfg.maxSize

/-- `const temporaryUploads = Array.isArray(ages) && ages.length` (lines 37-38). -/
def temporaryUploads (cfg : Config) : Bool := !cfg.temporaryUploadAges.isEmpty

/-- `const extensionsFilter = Array.isArray(l) && l.length` (lines 33-34). -/
def extensionsFilterOn (cfg : Config) : Bool := !cfg.extensionsFilter.isEmpty

/-! ## Extension policy: `self.isExtensionFiltered` (lines 119-133) -/

/-- `self.isExtensionFiltered` (lines 119-133): empty extensions are filtered
exactly when `config.filterNoExtension` is set; otherwise, with a non-empty
configured list, the extension is compared against the lowercased entries and
the verdict is flipped by whitelist mode. -/
def isExtensionFiltered (cfg : Config) (extname : String) : Bool :=
  if extname.isEmpty && cfg.filterNoExtension then true
  else if !extname.isEmpty && extensionsFilterOn cfg then
    let m := cfg.extensionsFilter.any (fun extension => extname == jsToLower extension)
    let whitelist := cfg.extensionsFilterMode == "whitelist"
    (!whitelist && m) || (whitelist && !m)
  else false

/-- JS `s.split(sep)` for a one-character separator, on character lists. -/
def splitOnChar (sep : Char) (l : List Char) : List (List Char) :=
  l.foldr
    (fun c acc =>
      if c = sep then [] :: acc
      else match acc with
        | [] => [[c]]
        | h :: t => (c :: h) :: t)
    [[]]

/-- Modelled from the spec: `utils.extname` (utilsController.js is not among
the sources).  Extension extraction: the lowercased suffix of the file name
starting at the last dot, empty when the name contains no dot. -/
def extnameOf (name : String) : String :=
  let parts := splitOnChar '.' name.data
  if parts.length ≤ 1 then ("")
  else jsToLower (String.mk ('.' :: parts.getLastD []))

/-! ## Retention ages: `self.parseUploadAge` (lines 177-185) and the gate in
`self.upload` (lines 214-219) -/

/-- The `age` request header / finalize field as seen by `parseUploadAge`:
absent (`undefined`/`null`), a value whose `parseFloat` is `NaN`, or a
parsed finite number. -/
inductive AgeInput where
  | absent
  | nan
  | val (q : ℚ)

/-- `self.parseUploadAge` (lines 177-185): absent input resolves to the first
configured age; a parsed number resolves to itself exactly when it is in the
allow-set, and to `null` (`none`) otherwise.  `NaN` is never contained in the
allow-set, hence resolves to `null`. -/
def parseUploadAge (ages : List ℚ) : AgeInput → Option ℚ
  | .absent => some (ages.headD 0)
  | .nan => none
  | .val q => if ages.contains q then some q else none

/-- JS truthiness of a resolved age (`!age` in lines 217 and 439): `null` and
`0` are falsy. -/
def ageTruthy : Option ℚ → Bool
  | none => false
  | some q => !(q == 0)

/-- The temporary-upload gate of `self.upload` (lines 214-219): when temporary
uploads are enabled, resolve the requested age and reject with the
permanent-uploads error when the resolved age is falsy and `0` is not in the
allow-set; otherwise the age stays `null`. -/
def uploadAgeGate (cfg : Config) (ageHeader : AgeInput) : Except String (Option ℚ) :=
  if temporaryUploads cfg then
    let age := parseUploadAge cfg.temporaryUploadAges ageHeader
    if !(ageTruthy age) && !(cfg.temporaryUploadAges.contains 0) then
      Except.error ("Permanent uploads are not permitted.")
    else Except.ok age
  else Except.ok none

/-! ## Identifier allocation: `self.getUniqueRandomName` (lines 149-175) -/

/-- Environment of the allocator.  `idMaxTries` is `utils.idMaxTries` (an
external constant of utilsController.js; the spec fixes it to a bounded
retry budget).  `gen i` is the identifier drawn by `randomstring.generate`
on attempt `i`; `onDisk` models the `paths.access` existence check of the
non-cached branch. -/
structure AllocEnv where
  idMaxTries : ℕ
  cacheFileIdentifiers : Bool
  gen : ℕ → String
  onDisk : String → Bool

/-- Loop body of `self.getUniqueRandomName` (lines 150-172): attempt `i`,
with `remaining` attempts left and `idSet` the in-memory identifier cache
(`utils.idSet`).  Returns the winning name together with the updated cache,
or the allocation-exhausted error. -/
def allocGo (env : AllocEnv) (extension : String) :
    List String → ℕ → ℕ → Except String (String × List String)
  | _, _, 0 => Except.error ("Sorry, we could not allocate a unique random name. Try again?")
  | idSet, i, r + 1 =>
    let identifier := env.gen i
    let name := identifier ++ extension
    if env.cacheFileIdentifiers then
      if idSet.contains identifier then allocGo env extension idSet (i + 1) r
      else Except.ok (name, identifier :: idSet)
    else
      if env.onDisk name then allocGo env extension idSet (i + 1) r
      else Except.ok (name, idSet)

/-- `self.getUniqueRandomName(length, extension)` (lines 149-175).  The
`length` argument is folded into `env.gen` (each draw is
`randomstring.generate(length)`). -/
def getUniqueRandomName (env : AllocEnv) (extension : String) (idSet : List String) :
    Except String (String × List String) :=
  allocGo env extension idSet 0 env.idMaxTries

/-! ## Chunk fragment naming (`filename` storage callback, lines 101-115) -/

/-- Fuel-driven digit expansion (the fuel only serves structural
termination; `decChars` supplies enough of it for any input). -/
def decCharsGo (fuel : ℕ) (n : ℕ) : List Char :=
  match fuel with
  | 0 => []
  | f + 1 =>
    if n < 10 then [Nat.digitChar n]
    else decCharsGo f (n / 10) ++ [Nat.digitChar (n % 10)]

/-- Decimal digit characters of a natural number, most significant first:
the model of JS number-to-string conversion (template literal interpolation
of a nonnegative integer). -/
def decChars (n : ℕ) : List Char := decCharsGo (n + 1) n

/-- JS decimal string of a natural number. -/
def decStr (n : ℕ) : String := String.mk (decChars n)

/-- JS `s.slice(-n)` for `n ≥ 1`: the last `n` characters (the whole string
when it is shorter than `n`). -/
def sliceNeg (s : String) (n : ℕ) : String :=
  String.mk (s.data.drop (s.data.length - n))

/-- The chunked branch of the multer `filename` callback (lines 110-114):
`digits` is the length of the decimal string of `totalchunkcount - 1` (1 when
the field is absent), `zeros` is `Array(digits + 1).join('0')`, and the
fragment name is `(zeros + chunkindex).slice(-digits)`.  `chunkindex` arrives
from the client as a decimal string. -/
def chunkFilename (totalchunkcount : Option ℕ) (chunkindex : String) : String :=
  let digits := match totalchunkcount with
    | some t => (decStr (t - 1)).length
    | none => 1
  let zeros := String.mk (List.replicate digits '0')
  sliceNeg (zeros ++ chunkindex) digits

/-- Zero-padded decimal representation of `n` with width `w` (the claim-side
description of a fragment name). -/
def zeroPad (w : ℕ) (n : ℕ) : String :=
  String.mk (List.replicate (w - (decChars n).length) '0' ++ decChars n)

/-! ## Chunk reassembly: `self.combineChunks` (lines 504-526) -/

/-- UTF-16 code-unit lexicographic comparison of two character lists — the
default comparator of JS `Array.prototype.sort` applied to strings (the
fragment names are ASCII, where code units and code points agree). -/
def lexLtChars : List Char → List Char → Bool
  | [], [] => false
  | [], _ :: _ => true
  | _ :: _, [] => false
  | a :: as, b :: bs => if a < b then true else if b < a then false else lexLtChars as bs

/-- JS default string comparison `a < b`. -/
def jsLtb (a b : String) : Bool := lexLtChars a.data b.data

/-- The total preorder used when sorting strings the JS way (`a` may stay
before `b` exactly when `b < a` fails). -/
def jsLeb (a b : String) : Bool := !(jsLtb b a)

/-- `chunks.sort()` (line 509): JS guarantees a stable sort by the default
string comparator; modelled as a stable insertion sort by `jsLeb`. -/
def jsSortStrings (l : List String) : List String :=
  List.insertionSort (fun a b => jsLeb a b = true) l

/-- `self.combineChunks` (lines 504-526): sort the recorded fragment names
with the default JS comparator (`chunks.sort()`, line 509) and stream each
fragment's payload, in that order, into the destination file (sequential
append into a write stream opened on a fresh file).  `content` maps a
fragment file name to its byte payload. -/
def combineChunks (chunks : List String) (content : String → List ℕ) : List ℕ :=
  (jsSortStrings chunks).foldl (fun acc c => acc ++ content c) []

/-- Claim-side description of reassembly: the concatenation of the fragment
payloads in strict numeric index order, fragment `i` being named by the
`filename` callback for index `i`. -/
def concatInIndexOrder (k : ℕ) (content : String → List ℕ) : List ℕ :=
  (List.range k).foldl
    (fun acc i => acc ++ content (chunkFilename (some k) (decStr i))) []

/-! ## Chunk sessions and finalize: `self.actuallyFinishChunks` (lines 418-502) -/

/-- One entry of `chunksData` (line 51): recorded fragment file names in
arrival order, and the accumulated byte size of the fragments
(`chunksData[uuid].size`, line 258). -/
structure ChunkSession where
  chunks : List String
  size : ℕ

/-- One element of `req.body.files` in a finalize request.  `requestedSize`
is the client-supplied `size` field of the descriptor: line 443 overwrites
`file.size` with the session's accumulated size before any use, so the field
is kept here only so that claims about it can be stated. -/
structure FinishFile where
  uuid : String
  original : Option String
  mimetype : Option String
  albumid : Option ℕ
  age : AgeInput
  requestedSize : Option ℕ

/-- The `data` object assembled for `infoMap` (lines 263-270 and 469-477). -/
structure UpFileData where
  filename : String
  originalname : String
  extname : String
  mimetype : String
  size : ℕ
  albumid : Option ℕ
  age : Option ℚ
deriving DecidableEq

/-- One `infoMap` entry: destination path and the associated metadata. -/
structure UpInfo where
  path : String
  data : UpFileData
deriving DecidableEq

/-- The `${ext} files are not permitted.` / `Files with no extension are not
permitted.` message (lines 73, 325, 435). -/
def charUpper (c : Char) : Char :=
  if 'a' ≤ c && c ≤ 'z' then Char.ofNat (c.toNat - 32) else c

/-- JS `s.toUpperCase()` (ASCII model). -/
def jsToUpper (s : String) : String := String.mk (s.data.map charUpper)

def notPermittedMsg (extname : String) : String :=
  (if extname.isEmpty then ("Files with no extension")
   else String.mk ((extname.data.drop 1).map charUpper) ++ (" files"))
    ++ (" are not permitted.")

/-- The raw `file.age` value when `parseUploadAge` is skipped (temporary
uploads disabled): the untouched request value, later subjected only to JS
truthiness (`NaN` and absent values behave like `null` there). -/
def rawAge : AgeInput → Option ℚ
  | .absent => none
  | .nan => none
  | .val q => some q

/-- The per-file body of `self.actuallyFinishChunks` (lines 429-479): chunk
count cap, extension policy, retention-age gate, empty/oversize checks, name
allocation, combine, cleanup, and the post-combine `lstat` size double-check
(lines 460-463) against `file.size`, which line 443 set to the session's
accumulated size.  `content` maps fragment names to payloads, so the `lstat`
of the freshly combined destination is the length of the combined payload. -/
def finishChunksFile (cfg : Config) (env : AllocEnv) (idSet : List String)
    (session : ChunkSession) (content : String → List ℕ) (file : FinishFile) :
    Except String UpInfo :=
  if session.chunks.length > maxChunksCount cfg then Except.error ("Too many chunks.")
  else
    let extname := match file.original with
      | some o => extnameOf o
      | none => ""
    if isExtensionFiltered cfg extname then Except.error (notPermittedMsg extname)
    else
      let ageStep : Except String (Option ℚ) :=
        if temporaryUploads cfg then
          let a := parseUploadAge cfg.temporaryUploadAges file.age
          if !(ageTruthy a) && !(cfg.temporaryUploadAges.contains 0) then
            Except.error ("Permanent uploads are not permitted.")
          else Except.ok a
        else Except.ok (rawAge file.age)
      match ageStep with
      | Except.error e => Except.error e
      | Except.ok age =>
        let size := session.size
        if cfg.filterEmptyFile && size == 0 then Except.error ("Empty files are not allowed.")
        else if size > maxSizeBytes cfg then
          Except.error ("File too large. Chunks are bigger than " ++ decStr cfg.maxSize ++ " MB.")
        else
          match getUniqueRandomName env extname idSet with
          | Except.error e => Except.error e
          | Except.ok (name, _) =>
            let combined := combineChunks session.chunks content
            -- `cleanUpChunks` (line 458) only evicts session state
            let lstatSize := combined.length
            if lstatSize ≠ size then Except.error ("Chunks size mismatched.")
            else
              Except.ok { path := name, data := {
                filename := name,
                originalname := file.original.getD (""),
                extname := extname,
                mimetype := file.mimetype.getD (""),
                size := size,
                albumid := file.albumid,
                age := age } }

/-- `self.actuallyFinishChunks` (lines 418-502): the `check` guard (lines
419-425) rejects a missing/short session, then every descriptor is processed;
any failure aborts the whole finalize (the catch block only re-raises after
cleanup), so no `infoMap` reaches persistence. -/
def actuallyFinishChunks (cfg : Config) (env : AllocEnv) (idSet : List String)
    (sessions : String → Option ChunkSession) (content : String → List ℕ)
    (files : List FinishFile) : Except String (List UpInfo) :=
  let check := fun (f : FinishFile) => match sessions f.uuid with
    | none => true
    | some s => decide (s.chunks.length < 2)
  if files.isEmpty || files.any check then Except.error ("An unexpected error occurred.")
  else files.mapM (fun f => match sessions f.uuid with
    | some s => finishChunksFile cfg env idSet s content f
    | none => Except.error ("An unexpected error occurred."))

/-! ## Dedup and persistence: `self.storeFilesToDb` (lines 599-701) and
`self.sendUploadResponse` (lines 703-724) -/

/-- A row of the `files` table as written by `storeFilesToDb`. -/
structure DbRec where
  name : String
  original : String
  mimetype : String
  size : ℕ
  hash : String
  ip : Option String
  timestamp : ℕ
  userid : Option ℕ
  albumid : Option ℕ
  expirydate : Option ℚ
deriving DecidableEq

/-- The acting account (only its id is consulted here). -/
structure User where
  id : ℕ
deriving DecidableEq

/-- The dedup lookup predicate (lines 615-628): owner scope (`whereNull` for
an anonymous upload, `userid = user.id` otherwise) plus content hash and
size. -/
def dedupWhere (user : Option User) (h : String) (sz : ℕ) (r : DbRec) : Bool :=
  (match user with
   | none => r.userid == none
   | some u => r.userid == some u.id) && r.hash == h && r.size == sz

/-- The `data` record built for a fresh (non-duplicate) file (lines 643-663):
ip storage gated by `config.uploads.storeIP !== false`, owner fields only for
authenticated uploads, and an expiry date only for a truthy age
(`if (info.data.age)`, line 662). -/
def buildFileData (cfg : Config) (reqIp : String) (now : ℕ) (user : Option User)
    (h : String) (d : UpFileData) : DbRec :=
  { name := d.filename,
    original := d.originalname,
    mimetype := d.mimetype,
    size := d.size,
    hash := h,
    ip := if cfg.storeIP then some reqIp else none,
    timestamp := now,
    userid := match user with
      | some u => some u.id
      | none => none,
    albumid := match user with
      | some _ => d.albumid
      | none => none,
    expirydate := match d.age with
      | some q => if q == 0 then none else some ((now : ℚ) + q * 3600)
      | none => none }

/-- Output of `storeFilesToDb`: the freshly inserted rows, the pre-existing
rows reported for duplicates, the unlinked duplicate file names, and the
`files` table after the batch insert. -/
structure StoreOut where
  files : List DbRec
  existing : List DbRec
  unlinked : List String
  newDb : List DbRec
deriving DecidableEq

/-- One iteration of the `infoMap` loop of `storeFilesToDb` (lines 604-670):
hash the file, run the dedup lookup against the pre-batch table, and push
either the existing row (plus the unlink) or the freshly built row. -/
def storeStep (cfg : Config) (reqIp : String) (now : ℕ) (user : Option User)
    (db : List DbRec) (hashOf : String → String)
    (acc : List DbRec × List DbRec × List String) (info : UpInfo) :
    List DbRec × List DbRec × List String :=
  let h := hashOf info.path
  match db.find? (dedupWhere user h info.data.size) with
  | some r => (acc.1, acc.2.1 ++ [r], acc.2.2 ++ [info.data.filename])
  | none => (acc.1 ++ [buildFileData cfg reqIp now user h info.data], acc.2.1, acc.2.2)

/-- Lines 682-684: clear `albumid` when the user does not own that album. -/
def albumClearRec (authorizedIds : List ℕ) (f : DbRec) : DbRec :=
  match f.albumid with
  | some a => if !authorizedIds.contains a then { f with albumid := none } else f
  | none => f

/-- `self.storeFilesToDb` (lines 599-701).  For each `infoMap` entry: hash
the file (`hashOf` models the md5 stream over the file at `info.path`), look
up an existing row in the same owner scope with the same hash and size
(`.first()` = `List.find?`); a hit unlinks the fresh file and reports the
existing row, a miss builds a new row.  Afterwards album ids not owned by the
user are cleared (lines 673-685, `albums` is the albums table as `(id,
userid)` pairs) and the new rows are inserted. -/
def storeFilesToDb (cfg : Config) (reqIp : String) (now : ℕ) (user : Option User)
    (db : List DbRec) (hashOf : String → String) (albums : List (ℕ × ℕ))
    (infoMap : List UpInfo) : StoreOut :=
  let trip := infoMap.foldl (storeStep cfg reqIp now user db hashOf) ([], [], [])
  let files := trip.1
  let existing := trip.2.1
  let unlinked := trip.2.2
  let albumids := files.foldl
    (fun l f => match f.albumid with
      | some a => if l.contains a then l else l ++ [a]
      | none => l) []
  let authorizedIds := match user with
    | some u => (albums.filter (fun (a : ℕ × ℕ) => a.2 == u.id && albumids.contains a.1)).map Prod.fst
    | none => []
  let files' := files.map (albumClearRec authorizedIds)
  { files := files', existing := existing, unlinked := unlinked, newDb := db ++ files' }

/-- The upload result list handed to the response: `files.concat(exists)`
(line 700). -/
def storeResult (out : StoreOut) : List DbRec := out.files ++ out.existing

/-- One entry of the success response body. -/
structure RespEntry where
  name : String
  url : String
  expirydate : Option ℚ
  original : Option String
deriving DecidableEq

/-- `self.sendUploadResponse` (lines 703-724): each result row is reported
with its name and URL; the expiry date is attached only when truthy, the
original name only on the `/nojs` route. -/
def sendUploadResponse (cfg : Config) (nojs : Bool) (result : List DbRec) : List RespEntry :=
  result.map (fun f =>
    { name := f.name,
      url := cfg.domain ++ ("/") ++ f.name,
      expirydate := match f.expirydate with
        | some v => if v == 0 then none else some v
        | none => none,
      original := if nojs then some f.original else none })

/-- Finalize followed by persistence: the composition exercised by a chunked
upload's finishChunks request (`storeFilesToDb` runs only when every
descriptor was processed without error). -/
def finishChunksAndStore (cfg : Config) (env : AllocEnv) (idSet : List String)
    (sessions : String → Option ChunkSession) (content : String → List ℕ)
    (reqIp : String) (now : ℕ) (user : Option User) (db : List DbRec)
    (hashOf : String → String) (albums : List (ℕ × ℕ))
    (files : List FinishFile) : Except String StoreOut :=
  match actuallyFinishChunks cfg env idSet sessions content files with
  | Except.error e => Except.error e
  | Except.ok infoMap => Except.ok (storeFilesToDb cfg reqIp now user db hashOf albums infoMap)

/-! ## Listing filters: `self.list` (lines 756-1092) -/

/-- Wall-clock civil time (UTC fields once both timezone offsets are zero).
`parseDate` (lines 829-857) starts from `new Date(Date.now() + offset)` and
overwrites civil components; this structure is that date value in civil
form. -/
structure CivilTime where
  year : ℕ
  month : ℕ
  day : ℕ
  hour : ℕ
  minute : ℕ
  second : ℕ
  ms : ℕ
deriving DecidableEq

def isLeap (y : ℕ) : Bool := (y % 4 == 0 && y % 100 != 0) || y % 400 == 0

def daysInYear (y : ℕ) : ℕ := if isLeap y then 366 else 365

def daysInMonth (y : ℕ) (m : ℕ) : ℕ :=
  if m == 2 then (if isLeap y then 29 else 28)
  else if m == 4 || m == 6 || m == 9 || m == 11 then 30
  else 31

def daysBeforeYear (y : ℕ) : ℕ :=
  (List.range (y - 1970)).foldl (fun acc i => acc + daysInYear (1970 + i)) 0

def daysBeforeMonth (y m : ℕ) : ℕ :=
  (List.range (m - 1)).foldl (fun acc i => acc + daysInMonth y (i + 1)) 0

/-- Milliseconds since the Unix epoch of a civil time (valid for the
in-range civil fields produced by the claims; years from 1970 on). -/
def toEpochMs (c : CivilTime) : ℕ :=
  ((((daysBeforeYear c.year + daysBeforeMonth c.year c.month + (c.day - 1)) * 24
      + c.hour) * 60 + c.minute) * 60 + c.second) * 1000 + c.ms

/-- Seconds past midnight of a civil time. -/
def timeOfDaySec (c : CivilTime) : ℕ := c.hour * 3600 + c.minute * 60 + c.second

/-! The date pattern of `parseDate` (line 832):
`/^(\d{4})?(\/\d{2})?(\/\d{2})?\s?(\d{2})?(:\d{2})?(:\d{2})?$/`, matched with
the regex engine's leftmost-greedy backtracking. -/

def isDigitCh (c : Char) : Bool := '0' ≤ c && c ≤ '9'

def digitVal (c : Char) : ℕ := c.toNat - 48

def take2 : List Char → Option (ℕ × List Char)
  | a :: b :: rest =>
    if isDigitCh a && isDigitCh b then some (digitVal a * 10 + digitVal b, rest) else none
  | _ => none

def take4 : List Char → Option (ℕ × List Char)
  | a :: b :: c :: d :: rest =>
    if isDigitCh a && isDigitCh b && isDigitCh c && isDigitCh d then
      some (((digitVal a * 10 + digitVal b) * 10 + digitVal c) * 10 + digitVal d, rest)
    else none
  | _ => none

def takeSlash2 : List Char → Option (ℕ × List Char)
  | '/' :: rest => take2 rest
  | _ => none

def takeColon2 : List Char → Option (ℕ × List Char)
  | ':' :: rest => take2 rest
  | _ => none

def takeWs : List Char → Option (Unit × List Char)
  | c :: rest => if c.isWhitespace then some ((), rest) else none
  | _ => none

/-- Try an optional regex group: prefer consuming it (greedy), fall back to
skipping it when the rest of the match fails — the backtracking order of an
anchored regex with optional groups. -/
def tryOpt {α β : Type} (p : List Char → Option (α × List Char))
    (k : Option α → List Char → Option β) (l : List Char) : Option β :=
  match p l with
  | some (v, rest) =>
    match k (some v) rest with
    | some out => some out
    | none => k none l
  | none => k none l

/-- The six captured groups of the date pattern. -/
structure DateParts where
  gy : Option ℕ
  gmo : Option ℕ
  gd : Option ℕ
  gh : Option ℕ
  gmi : Option ℕ
  gs : Option ℕ
deriving DecidableEq

/-- `date.match(/^(\d{4})?(\/\d{2})?(\/\d{2})?\s?(\d{2})?(:\d{2})?(:\d{2})?$/)`
(line 832). -/
def matchDateRegex (l : List Char) : Option DateParts :=
  tryOpt take4 (fun y l1 =>
  tryOpt takeSlash2 (fun mo l2 =>
  tryOpt takeSlash2 (fun d l3 =>
  tryOpt takeWs (fun _ l4 =>
  tryOpt take2 (fun h l5 =>
  tryOpt takeColon2 (fun mi l6 =>
  tryOpt takeColon2 (fun s l7 =>
    if l7.isEmpty then some { gy := y, gmo := mo, gd := d, gh := h, gmi := mi, gs := s }
    else none) l6) l5) l4) l3) l2) l1) l

/-- `parseDate` (lines 829-857).  `nowShifted` is
`new Date(Date.now() + offset)` in civil form (`offset = 60000 *
(utils.timezoneOffset - minoffset)`, line 835).  A year match overwrites
year/month/day (`setFullYear`, lines 838-841 — the source passes the
zero-based month index `mm - 1`, i.e. civil month `mm`, defaulting to
January, day 1); an hour match overwrites hour/minute/second (lines
843-846); missing time components keep the current wall-clock values.
The result is `new Date(dateObj.getTime() - offset)` in epoch ms. -/
def parseDate (tzOffset minoffset : ℤ) (nowShifted : CivilTime) (resetMs : Bool)
    (date : String) : Option ℤ :=
  match matchDateRegex date.data with
  | none => none
  | some p =>
    let offset : ℤ := 60000 * (tzOffset - minoffset)
    let c1 := match p.gy with
      | some y => { nowShifted with
          year := y,
          month := match p.gmo with
            | some m => m
            | none => 1,
          day := match p.gd with
            | some d => d
            | none => 1 }
      | none => nowShifted
    let c2 := match p.gh with
      | some h => { c1 with hour := h, minute := p.gmi.getD 0, second := p.gs.getD 0 }
      | none => c1
    let c3 := if resetMs then { c2 with ms := 0 } else c2
    some ((toEpochMs c3 : ℤ) - offset)

/-- `Math.floor(parsed / 1000)` (line 864). -/
def jsFloorDiv1000 (x : ℤ) : ℤ := Int.fdiv x 1000

/-- `Math.ceil(parsed / 1000)` (line 868). -/
def jsCeilDiv1000 (x : ℤ) : ℤ := -(Int.fdiv (-x) 1000)

/-- A range token's raw endpoints as delivered by the tokenizer
(`{from, to}` with possibly missing sides). -/
structure RangeStrs where
  qfrom : Option String
  qto : Option String
deriving DecidableEq

/-- Modelled from the spec: the output of the external search-query-parser
npm package for `searchQuery.parse(filters, {keywords: [ip, user, orderby],
ranges: [date, expiry], tokenize, alwaysArray, offsets: false})` (lines
806-814).  Keyword occurrences are collected into arrays (`none` when the
keyword never occurs), `-key:value` occurrences into the `exclude` arrays,
range tokens `key:a-b` into from/to strings, and remaining free text into
`text`. -/
structure ParsedQueries where
  qip : Option (List String)
  quser : Option (List String)
  excludeIp : Option (List String)
  excludeUser : Option (List String)
  qtext : Option (List String)
  excludeText : Option (List String)
  qdate : Option RangeStrs
  qexpiry : Option RangeStrs
  qorderby : Option (List String)
deriving DecidableEq

/-- JS `array.filter((v, i, a) => a.indexOf(v) === i)` (line 819): keep the
first occurrence of each value. -/
def uniqueFirst (l : List String) : List String :=
  l.foldl (fun acc v => if acc.contains v then acc else acc ++ [v]) []

/-- The NULL-flag extraction (lines 822-827): when a literal `-` value is
present, set the flag and splice out its first occurrence. -/
def extractDash (l : List String) : Bool × List String :=
  if l.contains ("-") then (true, l.erase ("-")) else (false, l)

/-- The translated filter state (`filterObj` and `orderByObj.parsed`,
lines 769-795). -/
structure FilterObj where
  uploaders : List (ℕ × String)
  excludeUploaders : List (ℕ × String)
  ipQuery : Option (List String)
  excludeIpQuery : Option (List String)
  noip : Bool
  nouser : Bool
  dateRange : Option (Option ℤ × Option ℤ)
  expiryRange : Option (Option ℤ × Option ℤ)
  textQuery : Option (List String)
  excludeTextQuery : Option (List String)
  orderbyParsed : List String
deriving DecidableEq

/-- The `orderby` column alias table (lines 784-787). -/
def orderbyMaps (s : String) : String :=
  if s == "date" then ("timestamp") else if s == "expiry" then ("expirydate") else s

/-- Columns using SQLite's NULLS LAST (lines 789-793). -/
def nullsLastCols : List String := ["userid", "expirydate", "ip"]

/-- One `orderby` entry `column[:direction]` (lines 906-918): lowercase,
split on `:`, remap the column, wrap cast columns, direction `desc` exactly
when the direction part is present, non-empty and starts with `d`. -/
def parseOrderbyEntry (obQuery : String) : String :=
  let tmp := (splitOnChar ':' (jsToLower obQuery).data).map String.mk
  let column0 := orderbyMaps (tmp.headD (""))
  let column := if column0 == "size" then ("cast (`size` as integer)") else column0
  let t1 := (tmp.drop 1).headD ("")
  let direction := if !t1.isEmpty && t1.data.headD ' ' == 'd' then ("desc") else ("asc")
  let suffixStr := if nullsLastCols.contains column then (" nulls last") else ("")
  column ++ (" ") ++ direction ++ suffixStr

/-- `User(s) not found: ...` (line 890). -/
def usersNotFoundMsg (notFound : List String) : String :=
  (if notFound.length == 1 then ("User") else ("Users"))
    ++ (" not found: ") ++ String.intercalate (", ") notFound ++ (".")

/-- The filter translation of `self.list` (lines 797-927): keyword dedup and
NULL-flag extraction, date/expiry range parsing to epoch seconds, username
resolution against the users table (`usersTable` as `(id, username)` rows),
and `orderby` parsing.  The username step aborts with the USER-NOT-FOUND
response whenever the row count differs from the number of supplied
usernames (lines 883-892). -/
def translateFilters (tzOffset minoffset : ℤ) (nowShifted : CivilTime)
    (usersTable : List (ℕ × String)) (q : ParsedQueries) : Except String FilterObj :=
  let ipStep := match q.qip with
    | none => (false, (none : Option (List String)))
    | some l =>
      let p := extractDash (uniqueFirst l)
      (p.1, some p.2)
  let userStep := match q.quser with
    | none => (false, (none : Option (List String)))
    | some l =>
      let p := extractDash (uniqueFirst l)
      (p.1, some p.2)
  let parseEnd := fun (ceil : Bool) (s : String) =>
    (parseDate tzOffset minoffset nowShifted true s).map
      (fun v => if ceil then jsCeilDiv1000 v else jsFloorDiv1000 v)
  let dr := q.qdate.map (fun r => (r.qfrom.bind (parseEnd false), r.qto.bind (parseEnd true)))
  let er := q.qexpiry.map (fun r => (r.qfrom.bind (parseEnd false), r.qto.bind (parseEnd true)))
  let userLists := userStep.2
  match (match userLists, q.excludeUser with
    | none, none => Except.ok (([], []) : List (ℕ × String) × List (ℕ × String))
    | _, _ =>
      let usernames := userLists.getD [] ++ q.excludeUser.getD []
      let uploaders := usersTable.filter (fun (u : ℕ × String) => usernames.contains u.2)
      if uploaders.length ≠ usernames.length then
        let notFound := usernames.filter
          (fun un => !(uploaders.any (fun (up : ℕ × String) => up.2 == un)))
        Except.error (usersNotFoundMsg notFound)
      else
        Except.ok
          (uploaders.filter (fun (u : ℕ × String) => (userLists.getD []).contains u.2),
           uploaders.filter (fun (u : ℕ × String) => !(userLists.getD []).contains u.2))) with
  | Except.error e => Except.error e
  | Except.ok up =>
    Except.ok {
      uploaders := up.1,
      excludeUploaders := up.2,
      ipQuery := ipStep.2,
      excludeIpQuery := q.excludeIp,
      noip := ipStep.1,
      nouser := userStep.1,
      dateRange := dr,
      expiryRange := er,
      textQuery := q.qtext,
      excludeTextQuery := q.excludeText,
      orderbyParsed := (q.qorderby.getD []).map parseOrderbyEntry }

/-- The date/expiry refinement of the `filter()` query builder as structured
where-clauses (lines 952-963). -/
inductive WhereClause where
  | whereBetween (col : String) (lo hi : Option ℤ)
  | whereGe (col : String) (v : Option ℤ)
deriving DecidableEq

/-- Lines 952-963 of the `filter()` builder: for the `date` range, a
`whereBetween` on `timestamp` when `to` is a number, else `timestamp >=
date.from`; for the `expiry` range, a `whereBetween` on `expirydate` when
`to` is a number, else (line 963) `expirydate >= filterObj.queries.date.from`
— reading a field of the `date` range object, which is a TypeError when no
`date` range was supplied (modelled as `Except.error`). -/
def dateExpiryWhere (dateRange expiryRange : Option (Option ℤ × Option ℤ)) :
    Except String (List WhereClause) :=
  let dPart : List WhereClause := match dateRange with
    | some (f, t) => match t with
      | some tv => [WhereClause.whereBetween ("timestamp") f (some tv)]
      | none => [WhereClause.whereGe ("timestamp") f]
    | none => []
  match expiryRange with
  | some (f, t) => match t with
    | some tv => Except.ok (dPart ++ [WhereClause.whereBetween ("expirydate") f (some tv)])
    | none => match dateRange with
      | some (df, _) => Except.ok (dPart ++ [WhereClause.whereGe ("expirydate") df])
      | none => Except.error ("TypeError: cannot read properties of undefined")
  | none => Except.ok dPart

/-- Modelled from the spec: the tokenization of the example filter text
`ip:10.0.0.1 -ip:- date:2020/01/01-2020/02/01 orderby:date:d` by the
external search-query-parser package: one `ip` inclusion, one `ip` exclusion
holding the literal `-`, a `date` range with both endpoints, and one
`orderby` entry. -/
def exampleQueries : ParsedQueries :=
  { qip := some ["10.0.0.1"],
    quser := none,
    excludeIp := some ["-"],
    excludeUser := none,
    qtext := none,
    excludeText := none,
    qdate := some { qfrom := some ("2020/01/01"), qto := some ("2020/02/01") },
    qexpiry := none,
    qorderby := some ["date:d"] }

/-! ## Auxiliary digit decomposition and concrete fixtures -/

/-- Base-10 digits of `n`, most significant first, padded to width `w`
(meaningful for `n < 10 ^ w`); used to reason about zero-padded names. -/
def padDigits : ℕ → ℕ → List ℕ
  | 0, _ => []
  | w + 1, n => n / 10 ^ w :: padDigits w (n % 10 ^ w)

/-- A permissive configuration used by concrete instances. -/
def cfgNoFilter : Config :=
  { filterNoExtension := false,
    extensionsFilter := [],
    extensionsFilterMode := "none",
    filterEmptyFile := true,
    temporaryUploadAges := [],
    cacheFileIdentifiers := true,
    storeIP := true,
    domain := "https://safe.test",
    maxSize := 50 }

/-- A deterministic allocator environment for concrete instances. -/
def allocFix : AllocEnv :=
  { idMaxTries := 100,
    cacheFileIdentifiers := true,
    gen := fun _ => "abc123",
    onDisk := fun _ => false }

/-- Fragment payloads for concrete instances. -/
def contentFix : String → List ℕ := fun s => if s == "0" then [10] else [20]

/-- A persisted row for concrete dedup instances. -/
def dbRecFix : DbRec :=
  { name := "old.png", original := "o", mimetype := "t", size := 3, hash := "H1",
    ip := none, timestamp := 100, userid := some 7, albumid := none,
    expirydate := some 777 }

/-- An incoming file for concrete dedup instances. -/
def infoFix : UpInfo :=
  { path := "new.png",
    data := { filename := "new.png", originalname := "orig", extname := ".png",
              mimetype := "t", size := 3, albumid := none, age := none } }

/-! # Theorems -/

/-- C5: a requested retention age in the allow-set resolves to exactly that
value; one not in the allow-set resolves to no age, and the upload is then
rejected with the permanent-uploads error exactly when `0` is not in the
allow-set. -/
theorem claim_C5_retention_age (cfg : Config) (hne : cfg.temporaryUploadAges ≠ []) :
    (∀ q : ℚ, q ∈ cfg.temporaryUploadAges →
      parseUploadAge cfg.temporaryUploadAges (AgeInput.val q) = some q)
    ∧ (∀ q : ℚ, q ∉ cfg.temporaryUploadAges →
      parseUploadAge cfg.temporaryUploadAges (AgeInput.val q) = none
      ∧ (uploadAgeGate cfg (AgeInput.val q)
           = Except.error ("Permanent uploads are not permitted.")
         ↔ (0 : ℚ) ∉ cfg.temporaryUploadAges)) := by
  have ht : temporaryUploads cfg = true := by
    unfold temporaryUploads
    rw [Bool.not_eq_true', Bool.eq_false_iff]
    intro hcE
    exact hne (List.isEmpty_iff.mp hcE)
  constructor
  · intro q hq
    simp [parseUploadAge, hq]
  · intro q hq
    have hc : cfg.temporaryUploadAges.contains q = false := by
      simpa using hq
    have hp : parseUploadAge cfg.temporaryUploadAges (AgeInput.val q) = none := by
      simp [parseUploadAge, hc]
      exact hq
    refine ⟨hp, ?_⟩
    by_cases h0 : (0 : ℚ) ∈ cfg.temporaryUploadAges
    · have hc0 : cfg.temporaryUploadAges.contains 0 = true := by simpa using h0
      simp only [uploadAgeGate, ht, hp, ageTruthy, hc0, Bool.not_true, Bool.and_false,
        if_true, Bool.false_eq_true, if_false]
      constructor
      · intro hcontra
        exact absurd hcontra (by simp)
      · intro hcontra
        exact absurd h0 hcontra
    · have hc0 : cfg.temporaryUploadAges.contains 0 = false := by simpa using h0
      simp only [uploadAgeGate, ht, hp, ageTruthy, hc0, Bool.not_false, Bool.and_true,
        if_true]
      constructor
      · intro _
        exact h0
      · intro _
        trivial

/-- C5 witness: allow-set `{0, 1, 24}`: requested age 24 resolves to 24,
requested age 2 resolves to no age and, since 0 is allowed, the upload is
not rejected. -/
theorem claim_C5_witness :
    parseUploadAge [0, 1, 24] (AgeInput.val 24) = some 24
    ∧ parseUploadAge [0, 1, 24] (AgeInput.val 2) = none
    ∧ ¬(uploadAgeGate { cfgNoFilter with temporaryUploadAges := [0, 1, 24] }
          (AgeInput.val 2) = Except.error ("Permanent uploads are not permitted.")) := by
  have h := claim_C5_retention_age { cfgNoFilter with temporaryUploadAges := [0, 1, 24] }
    (by simp)
  refine ⟨h.1 24 (by norm_num), (h.2 2 (by norm_num)).1, fun hc => ?_⟩
  exact ((h.2 2 (by norm_num)).2.mp hc) (by norm_num)

/-- C6: files without extension are filtered exactly when the deployment
disallows extension-less files; with a configured (non-empty) list the
extension is filtered iff it occurs in the list (blacklist) resp. iff it
does not (whitelist), comparisons being insensitive to the case of the
configured entries (the verdict depends only on their lowercased forms). -/
theorem claim_C6_extension_policy (cfg : Config) :
    isExtensionFiltered cfg ("") = cfg.filterNoExtension
    ∧ (∀ extn : String, extn ≠ "" → cfg.extensionsFilter ≠ [] →
        ((cfg.extensionsFilterMode ≠ "whitelist" →
          (isExtensionFiltered cfg extn = true
            ↔ ∃ e ∈ cfg.extensionsFilter, extn = jsToLower e))
        ∧ (cfg.extensionsFilterMode = "whitelist" →
          (isExtensionFiltered cfg extn = true
            ↔ ¬∃ e ∈ cfg.extensionsFilter, extn = jsToLower e))))
    ∧ (∀ cfg₂ : Config, cfg₂.filterNoExtension = cfg.filterNoExtension →
        cfg₂.extensionsFilterMode = cfg.extensionsFilterMode →
        cfg₂.extensionsFilter.map jsToLower = cfg.extensionsFilter.map jsToLower →
        ∀ extn, isExtensionFiltered cfg₂ extn = isExtensionFiltered cfg extn) := by
  refine ⟨?_, ?_, ?_⟩
  · have he : ("" : String).isEmpty = true := rfl
    by_cases h : cfg.filterNoExtension <;> simp [isExtensionFiltered, he, h]
  · intro extn hne hl
    have hemp : extn.isEmpty = false := by
      rw [Bool.eq_false_iff]
      intro hcE
      exact hne ((String.isEmpty_iff extn).mp hcE)
    have hfl : extensionsFilterOn cfg = true := by
      unfold extensionsFilterOn
      rw [Bool.not_eq_true', Bool.eq_false_iff]
      intro hcE
      exact hl (List.isEmpty_iff.mp hcE)
    constructor
    · intro hmode
      have hw : (cfg.extensionsFilterMode == "whitelist") = false := by
        simpa using hmode
      simp [isExtensionFiltered, hemp, hfl, hw, List.any_eq_true, beq_iff_eq]
    · intro hmode
      have hw : (cfg.extensionsFilterMode == "whitelist") = true := by
        simpa using hmode
      simp [isExtensionFiltered, hemp, hfl, hw, List.any_eq_true, beq_iff_eq]
  · intro cfg₂ hno hmode hmap extn
    have hE : cfg₂.extensionsFilter.isEmpty = cfg.extensionsFilter.isEmpty := by
      rcases hx : cfg₂.extensionsFilter with _ | ⟨a, t⟩ <;>
        rcases hy : cfg.extensionsFilter with _ | ⟨b, s⟩ <;>
        rw [hx, hy] at hmap <;> simp_all
    have hA : cfg₂.extensionsFilter.any (fun e => extn == jsToLower e)
        = cfg.extensionsFilter.any (fun e => extn == jsToLower e) := by
      have h₂ := List.any_map (l := cfg₂.extensionsFilter) (f := jsToLower)
        (p := fun x => extn == x)
      have h₁ := List.any_map (l := cfg.extensionsFilter) (f := jsToLower)
        (p := fun x => extn == x)
      simp only [Function.comp_def] at h₂ h₁
      rw [← h₂, ← h₁, hmap]
    simp [isExtensionFiltered, extensionsFilterOn, hE, hA, hno, hmode]

/-- C6 witness: for blacklist `{.exe}` the name `a.exe` is filtered; for
whitelist `{.png}` the name `a.jpg` is filtered while `a.png` is not. -/
theorem claim_C6_witness :
    isExtensionFiltered
      { cfgNoFilter with extensionsFilter := [".exe"], extensionsFilterMode := "blacklist" }
      (extnameOf ("a.exe")) = true
    ∧ isExtensionFiltered
      { cfgNoFilter with extensionsFilter := [".png"], extensionsFilterMode := "whitelist" }
      (extnameOf ("a.jpg")) = true
    ∧ isExtensionFiltered
      { cfgNoFilter with extensionsFilter := [".png"], extensionsFilterMode := "whitelist" }
      (extnameOf ("a.png")) = false := by
  have hB := (claim_C6_extension_policy
    { cfgNoFilter with extensionsFilter := [".exe"], extensionsFilterMode := "blacklist" }).2.1
    (extnameOf ("a.exe")) (by decide) (by decide)
  have hW1 := (claim_C6_extension_policy
    { cfgNoFilter with extensionsFilter := [".png"], extensionsFilterMode := "whitelist" }).2.1
    (extnameOf ("a.jpg")) (by decide) (by decide)
  have hW2 := (claim_C6_extension_policy
    { cfgNoFilter with extensionsFilter := [".png"], extensionsFilterMode := "whitelist" }).2.1
    (extnameOf ("a.png")) (by decide) (by decide)
  refine ⟨(hB.1 (by decide)).mpr ⟨".exe", by decide, by decide⟩,
    (hW1.2 (by decide)).mpr ?_, ?_⟩
  · rintro ⟨e, he, hx⟩
    rw [List.mem_singleton] at he
    subst he
    exact absurd hx (by decide)
  · have hx : ¬(isExtensionFiltered
        { cfgNoFilter with extensionsFilter := [".png"], extensionsFilterMode := "whitelist" }
        (extnameOf ("a.png")) = true) := by
      intro hc
      exact ((hW2.2 (by decide)).mp hc) ⟨".png", by decide, by decide⟩
    simpa using hx

/-- C10: an absent requested age resolves to the first configured allow-set
entry, and a stored record carries an expiry date exactly when the resolved
age is non-zero (`expirydate = timestamp + age·3600`). -/
theorem claim_C10_default_age_and_expiry :
    (∀ (a : ℚ) (rest : List ℚ), parseUploadAge (a :: rest) AgeInput.absent = some a)
    ∧ (∀ cfg reqIp now user h (d : UpFileData), d.age = some 0 →
        (buildFileData cfg reqIp now user h d).expirydate = none)
    ∧ (∀ cfg reqIp now user h (d : UpFileData), d.age = none →
        (buildFileData cfg reqIp now user h d).expirydate = none)
    ∧ (∀ cfg reqIp now user h (d : UpFileData) (q : ℚ), d.age = some q → q ≠ 0 →
        (buildFileData cfg reqIp now user h d).expirydate
          = some ((now : ℚ) + q * 3600)) := by
  refine ⟨fun a rest => rfl, ?_, ?_, ?_⟩
  · intro cfg reqIp now user h d hd
    simp [buildFileData, hd]
  · intro cfg reqIp now user h d hd
    simp [buildFileData, hd]
  · intro cfg reqIp now user h d q hd hq
    simp [buildFileData, hd, hq]

/-- C10 witness: allow-set `{24}` with absent request resolves to 24; a
resolved age 0 yields no expiry date, a resolved age 24 yields
`timestamp + 86400`. -/
theorem claim_C10_witness :
    parseUploadAge [24] AgeInput.absent = some 24
    ∧ (buildFileData cfgNoFilter ("ip") 100 none ("H")
        { infoFix.data with age := some 0 }).expirydate = none
    ∧ (buildFileData cfgNoFilter ("ip") 100 none ("H")
        { infoFix.data with age := some 24 }).expirydate = some 86500 := by
  refine ⟨claim_C10_default_age_and_expiry.1 24 [],
    claim_C10_default_age_and_expiry.2.1 cfgNoFilter ("ip") 100 none ("H") _ rfl, ?_⟩
  rw [claim_C10_default_age_and_expiry.2.2.2 cfgNoFilter ("ip") 100 none ("H") _ 24 rfl
    (by norm_num)]
  norm_num

/-- Cache-mode success analysis of the allocation loop (lines 150-172). -/
theorem allocGo_cache_ok (env : AllocEnv) (ext : String) (idSet : List String)
    (hc : env.cacheFileIdentifiers = true) :
    ∀ (r i : ℕ) (name : String) (outSet : List String),
      allocGo env ext idSet i r = Except.ok (name, outSet) →
      ∃ j, i ≤ j ∧ j < i + r ∧ idSet.contains (env.gen j) = false
        ∧ name = env.gen j ++ ext ∧ outSet = env.gen j :: idSet := by
  intro r
  induction r with
  | zero =>
    intro i name outSet h
    simp [allocGo] at h
  | succ r ih =>
    intro i name outSet h
    rw [allocGo] at h
    rw [hc] at h
    simp only [if_true] at h
    cases hcont : idSet.contains (env.gen i) with
    | true =>
      rw [hcont] at h
      simp only [if_true] at h
      obtain ⟨j, hj1, hj2, hj3, hj4, hj5⟩ := ih (i + 1) name outSet h
      exact ⟨j, by omega, by omega, hj3, hj4, hj5⟩
    | false =>
      rw [hcont] at h
      simp only [Bool.false_eq_true, if_false, Except.ok.injEq, Prod.mk.injEq] at h
      exact ⟨i, le_refl i, by omega, hcont, h.1.symm, h.2.symm⟩

/-- Cache-mode exhaustion analysis of the allocation loop. -/
theorem allocGo_cache_exhaust (env : AllocEnv) (ext : String) (idSet : List String)
    (hc : env.cacheFileIdentifiers = true) :
    ∀ (r i : ℕ), (∀ j, i ≤ j → j < i + r → idSet.contains (env.gen j) = true) →
      allocGo env ext idSet i r
        = Except.error ("Sorry, we could not allocate a unique random name. Try again?") := by
  intro r
  induction r with
  | zero =>
    intro i _
    rfl
  | succ r ih =>
    intro i hall
    rw [allocGo, hc]
    simp only [if_true]
    rw [hall i (le_refl i) (by omega)]
    simp only [if_true]
    exact ih (i + 1) (fun j h1 h2 => hall j (by omega) (by omega))

/-- C4: in cache mode `getUniqueRandomName` only returns a name whose
identifier was not in the cache, adds the identifier to the cache in the
returned state, uses at most `idMaxTries` attempts, and reports the
allocation-exhausted error when every attempt within the budget collides. -/
theorem claim_C4_allocator (env : AllocEnv) (ext : String) (idSet : List String)
    (hc : env.cacheFileIdentifiers = true) :
    (∀ name outSet, getUniqueRandomName env ext idSet = Except.ok (name, outSet) →
      ∃ j, j < env.idMaxTries ∧ idSet.contains (env.gen j) = false
        ∧ name = env.gen j ++ ext ∧ outSet = env.gen j :: idSet)
    ∧ ((∀ j, j < env.idMaxTries → idSet.contains (env.gen j) = true) →
      getUniqueRandomName env ext idSet
        = Except.error ("Sorry, we could not allocate a unique random name. Try again?")) := by
  constructor
  · intro name outSet h
    obtain ⟨j, _, hj2, hj3, hj4, hj5⟩ :=
      allocGo_cache_ok env ext idSet hc env.idMaxTries 0 name outSet h
    exact ⟨j, by omega, hj3, hj4, hj5⟩
  · intro hall
    exact allocGo_cache_exhaust env ext idSet hc env.idMaxTries 0
      (fun j _ hj => hall j (by omega))

/-- C4 witness: a fresh identifier is reserved in the returned cache before
the name is handed out; with budget 2 and a permanently colliding generator
the allocator reports exhaustion. -/
theorem claim_C4_witness :
    (∃ j, j < 100 ∧ (["abc"] : List String).contains (allocFix.gen j) = false
      ∧ ("abc123.png" : String) = allocFix.gen j ++ (".png")
      ∧ (["abc123", "abc"] : List String) = allocFix.gen j :: ["abc"])
    ∧ getUniqueRandomName { allocFix with idMaxTries := 2, gen := fun _ => "abc" }
        (".png") ["abc"]
        = Except.error ("Sorry, we could not allocate a unique random name. Try again?") := by
  constructor
  · exact (claim_C4_allocator allocFix (".png") ["abc"] rfl).1 ("abc123.png")
      (["abc123", "abc"]) rfl
  · exact (claim_C4_allocator { allocFix with idMaxTries := 2, gen := fun _ => "abc" }
      (".png") ["abc"] rfl).2 (fun j _ => rfl)

/-- Inversion of a successful per-file finalize: the combined file's size
equals the session's accumulated size and is the size recorded for
persistence. -/
theorem finishChunksFile_ok_size (cfg : Config) (env : AllocEnv) (idSet : List String)
    (session : ChunkSession) (content : String → List ℕ) (file : FinishFile)
    (info : UpInfo)
    (h : finishChunksFile cfg env idSet session content file = Except.ok info) :
    (combineChunks session.chunks content).length = session.size
    ∧ info.data.size = session.size := by
  simp only [finishChunksFile] at h
  split at h
  · exact absurd h (by simp)
  · split at h
    · exact absurd h (by simp)
    · split at h
      · exact absurd h (by simp)
      · split at h
        · exact absurd h (by simp)
        · split at h
          · exact absurd h (by simp)
          · split at h
            · exact absurd h (by simp)
            · split at h
              · exact absurd h (by simp)
              · rename_i hsz
                have h1 : (combineChunks session.chunks content).length = session.size := by
                  by_contra hcon
                  exact hsz hcon
                cases h
                exact ⟨h1, rfl⟩

/-- A successful `mapM` over `Except` means every element succeeded. -/
theorem mapM_except_ok {α β : Type} (g : α → Except String β) :
    ∀ (l : List α) (out : List β), l.mapM g = Except.ok out →
      ∀ a ∈ l, ∃ b, g a = Except.ok b := by
  intro l
  induction l with
  | nil =>
    intro out _ a ha
    exact absurd ha (List.not_mem_nil a)
  | cons x xs ih =>
    intro out h a ha
    rw [List.mapM_cons] at h
    cases hx : g x with
    | error e =>
      rw [hx] at h
      exact absurd h (by simp [Bind.bind, Except.bind])
    | ok b =>
      rw [hx] at h
      cases hxs : xs.mapM g with
      | error e =>
        rw [hxs] at h
        exact absurd h (by simp [Bind.bind, Except.bind])
      | ok bs =>
        rcases List.mem_cons.mp ha with rfl | hmem
        · exact ⟨b, hx⟩
        · exact ih bs hxs a hmem

/-- C3 (amended): after combining, the actual byte size of the combined file
must equal the session's tracked accumulated size — on mismatch the finalize
fails with the size-mismatch error and nothing is persisted — while the size
claimed in the finalize request is ignored (the code overwrites it before
comparing, so it takes no part in the check). -/
theorem claim_C3_size_check :
    (∀ cfg env idSet session content file info,
      finishChunksFile cfg env idSet session content file = Except.ok info →
      (combineChunks session.chunks content).length = session.size
      ∧ info.data.size = session.size)
    ∧ (∀ cfg env idSet session content file,
      (combineChunks session.chunks content).length ≠ session.size →
      ∀ info, finishChunksFile cfg env idSet session content file ≠ Except.ok info)
    ∧ (∀ cfg env idSet session content file sz,
      finishChunksFile cfg env idSet session content file
        = finishChunksFile cfg env idSet session content { file with requestedSize := sz })
    ∧ (∀ cfg env idSet sessions content reqIp now user db hashOf albums files
        (f : FinishFile) (s : ChunkSession), f ∈ files → sessions f.uuid = some s →
      (combineChunks s.chunks content).length ≠ s.size →
      ∀ out, finishChunksAndStore cfg env idSet sessions content reqIp now user db
        hashOf albums files ≠ Except.ok out) := by
  refine ⟨finishChunksFile_ok_size, ?_, ?_, ?_⟩
  · intro cfg env idSet session content file hne info hok
    exact hne (finishChunksFile_ok_size cfg env idSet session content file info hok).1
  · intro cfg env idSet session content file sz
    cases file
    rfl
  · intro cfg env idSet sessions content reqIp now user db hashOf albums files f s
      hmem hsess hne out hok
    unfold finishChunksAndStore at hok
    cases hfc : actuallyFinishChunks cfg env idSet sessions content files with
    | error e =>
      rw [hfc] at hok
      exact absurd hok (by simp)
    | ok infoMap =>
      simp only [actuallyFinishChunks] at hfc
      split at hfc
      · exact absurd hfc (by simp)
      · obtain ⟨b, hb⟩ := mapM_except_ok _ files infoMap hfc f hmem
        rw [hsess] at hb
        exact hne (finishChunksFile_ok_size cfg env idSet s content f b hb).1

/-- C3 counterexample: a finalize descriptor claiming size 999 while the
combined file and the session both have size 2 nevertheless succeeds — the
request-claimed size is never compared. -/
theorem claim_C3_counterexample :
    finishChunksFile cfgNoFilter allocFix [] ⟨["0", "1"], 2⟩ contentFix
      ⟨"u1", some ("orig.bin"), some ("application/octet-stream"), none,
        AgeInput.absent, some 999⟩
      = Except.ok ⟨"abc123.bin", ⟨"abc123.bin", "orig.bin", ".bin",
          "application/octet-stream", 2, none, none⟩⟩
    ∧ (999 : ℕ) ≠ 2 := ⟨rfl, by decide⟩

/-- C3 witness: a successful finalize instance whose combined size equals the
tracked size, and a concrete mismatching session whose finalize can persist
nothing. -/
theorem claim_C3_witness :
    (combineChunks ["0", "1"] contentFix).length = 2
    ∧ finishChunksAndStore cfgNoFilter allocFix []
        (fun _ => some ⟨["0", "1"], 5⟩) contentFix ("ip") 100 none []
        (fun _ => "H") []
        [⟨"u1", some ("orig.bin"), none, none, AgeInput.absent, none⟩]
        ≠ Except.ok (storeFilesToDb cfgNoFilter ("ip") 100 none [] (fun _ => "H") [] []) := by
  constructor
  · exact (claim_C3_size_check.1 cfgNoFilter allocFix [] ⟨["0", "1"], 2⟩ contentFix
      ⟨"u1", some ("orig.bin"), none, none, AgeInput.absent, none⟩
      ⟨"abc123.bin", ⟨"abc123.bin", "orig.bin", ".bin", "", 2, none, none⟩⟩
      rfl).1
  · exact claim_C3_size_check.2.2.2 cfgNoFilter allocFix []
      (fun _ => some ⟨["0", "1"], 5⟩) contentFix ("ip") 100 none []
      (fun _ => "H") [] _ _ _ (List.mem_singleton.mpr rfl) rfl (by decide) _

/-- Characterization of the dedup loop: inserted rows come exactly from the
lookup misses, existing rows and unlinks exactly from the hits. -/
theorem storeFold_spec (cfg : Config) (reqIp : String) (now : ℕ) (user : Option User)
    (db : List DbRec) (hashOf : String → String) :
    ∀ (infoMap : List UpInfo) (fs es : List DbRec) (us : List String),
      infoMap.foldl (storeStep cfg reqIp now user db hashOf) (fs, es, us)
        = (fs ++ (infoMap.filter (fun i =>
              (db.find? (dedupWhere user (hashOf i.path) i.data.size)).isNone)).map
            (fun i => buildFileData cfg reqIp now user (hashOf i.path) i.data),
           es ++ infoMap.filterMap
            (fun i => db.find? (dedupWhere user (hashOf i.path) i.data.size)),
           us ++ (infoMap.filter (fun i =>
              (db.find? (dedupWhere user (hashOf i.path) i.data.size)).isSome)).map
            (fun i => i.data.filename)) := by
  intro infoMap
  induction infoMap with
  | nil =>
    intro fs es us
    simp
  | cons x xs ih =>
    intro fs es us
    rw [List.foldl_cons]
    cases hfind : db.find? (dedupWhere user (hashOf x.path) x.data.size) with
    | some r =>
      have hstep : storeStep cfg reqIp now user db hashOf (fs, es, us) x
          = (fs, es ++ [r], us ++ [x.data.filename]) := by
        simp only [storeStep, hfind]
      rw [hstep, ih]
      simp [List.filter_cons, List.filterMap_cons, hfind]
    | none =>
      have hstep : storeStep cfg reqIp now user db hashOf (fs, es, us) x
          = (fs ++ [buildFileData cfg reqIp now user (hashOf x.path) x.data], es, us) := by
        simp only [storeStep, hfind]
      rw [hstep, ih]
      simp [List.filter_cons, List.filterMap_cons, hfind]

/-- The reported pre-existing rows are exactly the dedup hits. -/
theorem store_existing_eq (cfg : Config) (reqIp : String) (now : ℕ) (user : Option User)
    (db : List DbRec) (hashOf : String → String) (albums : List (ℕ × ℕ))
    (infoMap : List UpInfo) :
    (storeFilesToDb cfg reqIp now user db hashOf albums infoMap).existing
      = infoMap.filterMap (fun i => db.find? (dedupWhere user (hashOf i.path) i.data.size)) := by
  simp only [storeFilesToDb]
  rw [storeFold_spec]
  simp

/-- The unlinked duplicate files are exactly the dedup hits' fresh names. -/
theorem store_unlinked_eq (cfg : Config) (reqIp : String) (now : ℕ) (user : Option User)
    (db : List DbRec) (hashOf : String → String) (albums : List (ℕ × ℕ))
    (infoMap : List UpInfo) :
    (storeFilesToDb cfg reqIp now user db hashOf albums infoMap).unlinked
      = (infoMap.filter (fun i =>
          (db.find? (dedupWhere user (hashOf i.path) i.data.size)).isSome)).map
        (fun i => i.data.filename) := by
  simp only [storeFilesToDb]
  rw [storeFold_spec]
  simp

/-- The number of inserted rows equals the number of dedup misses. -/
theorem store_files_length (cfg : Config) (reqIp : String) (now : ℕ) (user : Option User)
    (db : List DbRec) (hashOf : String → String) (albums : List (ℕ × ℕ))
    (infoMap : List UpInfo) :
    (storeFilesToDb cfg reqIp now user db hashOf albums infoMap).files.length
      = (infoMap.filter (fun i =>
          (db.find? (dedupWhere user (hashOf i.path) i.data.size)).isNone)).length := by
  simp only [storeFilesToDb]
  rw [storeFold_spec]
  simp

/-- Album clearing keeps every field that identifies the upload. -/
theorem albumClearRec_pres (ids : List ℕ) (f : DbRec) :
    (albumClearRec ids f).userid = f.userid
    ∧ (albumClearRec ids f).hash = f.hash
    ∧ (albumClearRec ids f).size = f.size := by
  unfold albumClearRec
  cases f.albumid with
  | none => exact ⟨rfl, rfl, rfl⟩
  | some a =>
    dsimp only
    split <;> exact ⟨rfl, rfl, rfl⟩

/-- A dedup miss on a one-element batch inserts exactly one row, carrying the
owner scope, hash and size of the upload. -/
theorem store_singleton_insert (cfg : Config) (reqIp : String) (now : ℕ)
    (user : Option User) (db : List DbRec) (hashOf : String → String)
    (albums : List (ℕ × ℕ)) (info : UpInfo)
    (hfind : db.find? (dedupWhere user (hashOf info.path) info.data.size) = none) :
    ∃ r : DbRec,
      storeFilesToDb cfg reqIp now user db hashOf albums [info]
        = { files := [r], existing := [], unlinked := [], newDb := db ++ [r] }
      ∧ r.userid = (buildFileData cfg reqIp now user (hashOf info.path) info.data).userid
      ∧ r.hash = hashOf info.path
      ∧ r.size = info.data.size := by
  have hstep : storeStep cfg reqIp now user db hashOf ([], [], []) info
      = ([buildFileData cfg reqIp now user (hashOf info.path) info.data], [], []) := by
    simp only [storeStep, hfind, List.nil_append]
  simp only [storeFilesToDb, List.foldl_cons, List.foldl_nil, hstep]
  simp only [List.map_cons, List.map_nil]
  refine ⟨_, rfl, ?_, ?_, ?_⟩
  · exact (albumClearRec_pres _ _).1
  · exact ((albumClearRec_pres _ _).2.1).trans rfl
  · exact ((albumClearRec_pres _ _).2.2).trans rfl

/-- C1: a dedup hit (same hash, size and owner scope; anonymous uploads
matching only ownerless rows) inserts nothing for that file, unlinks the
fresh file, and the response reuses the existing row's name and expiry;
identical content stored under two distinct owners yields two distinct
rows. -/
theorem claim_C1_dedup :
    (∀ cfg reqIp now user db (hashOf : String → String) albums
        (infoMap : List UpInfo) (nojs : Bool) (info : UpInfo) (r : DbRec),
      info ∈ infoMap →
      db.find? (dedupWhere user (hashOf info.path) info.data.size) = some r →
      r ∈ (storeFilesToDb cfg reqIp now user db hashOf albums infoMap).existing
      ∧ info.data.filename
          ∈ (storeFilesToDb cfg reqIp now user db hashOf albums infoMap).unlinked
      ∧ ∃ entry ∈ sendUploadResponse cfg nojs
            (storeResult (storeFilesToDb cfg reqIp now user db hashOf albums infoMap)),
          entry.name = r.name
          ∧ entry.expirydate = (match r.expirydate with
              | some v => if v == 0 then none else some v
              | none => none))
    ∧ (∀ cfg reqIp now user db (hashOf : String → String) albums (infoMap : List UpInfo),
      (storeFilesToDb cfg reqIp now user db hashOf albums infoMap).files.length
        = (infoMap.filter (fun i =>
            (db.find? (dedupWhere user (hashOf i.path) i.data.size)).isNone)).length)
    ∧ (∀ cfg reqIp now (u₁ u₂ : User) db (hashOf : String → String) albums
        (info : UpInfo),
      u₁.id ≠ u₂.id →
      db.find? (dedupWhere (some u₁) (hashOf info.path) info.data.size) = none →
      db.find? (dedupWhere (some u₂) (hashOf info.path) info.data.size) = none →
      ∃ r₁ r₂ : DbRec,
        (storeFilesToDb cfg reqIp now (some u₂)
            (storeFilesToDb cfg reqIp now (some u₁) db hashOf albums [info]).newDb
            hashOf albums [info]).newDb
          = db ++ [r₁] ++ [r₂]
        ∧ r₁.userid = some u₁.id ∧ r₂.userid = some u₂.id
        ∧ r₁.hash = hashOf info.path ∧ r₂.hash = hashOf info.path
        ∧ r₁.size = info.data.size ∧ r₂.size = info.data.size
        ∧ r₁ ≠ r₂) := by
  refine ⟨?_, ?_, ?_⟩
  · intro cfg reqIp now user db hashOf albums infoMap nojs info r hmem hfind
    have hex : r ∈ (storeFilesToDb cfg reqIp now user db hashOf albums infoMap).existing := by
      rw [store_existing_eq]
      exact List.mem_filterMap.mpr ⟨info, hmem, hfind⟩
    refine ⟨hex, ?_, ?_⟩
    · rw [store_unlinked_eq]
      refine List.mem_map.mpr ⟨info, List.mem_filter.mpr ⟨hmem, ?_⟩, rfl⟩
      rw [hfind]
      rfl
    · simp only [sendUploadResponse, storeResult]
      exact ⟨_, List.mem_map_of_mem _ (List.mem_append_right _ hex), rfl, rfl⟩
  · intro cfg reqIp now user db hashOf albums infoMap
    exact store_files_length cfg reqIp now user db hashOf albums infoMap
  · intro cfg reqIp now u₁ u₂ db hashOf albums info hneq h1 h2
    obtain ⟨r₁, heq₁, hu₁, hh₁, hs₁⟩ :=
      store_singleton_insert cfg reqIp now (some u₁) db hashOf albums info h1
    have hu₁' : r₁.userid = some u₁.id := hu₁.trans rfl
    have hfind₂ : (db ++ [r₁]).find?
        (dedupWhere (some u₂) (hashOf info.path) info.data.size) = none := by
      rw [List.find?_append, h2]
      have hb : (some u₁.id == some u₂.id) = false := by
        simp [hneq]
      have : dedupWhere (some u₂) (hashOf info.path) info.data.size r₁ = false := by
        unfold dedupWhere
        rw [hu₁']
        dsimp only
        rw [hb]
        rfl
      simp [List.find?_cons, this]
    obtain ⟨r₂, heq₂, hu₂, hh₂, hs₂⟩ :=
      store_singleton_insert cfg reqIp now (some u₂) (db ++ [r₁]) hashOf albums info hfind₂
    have hu₂' : r₂.userid = some u₂.id := hu₂.trans rfl
    refine ⟨r₁, r₂, ?_, hu₁', hu₂', hh₁, hh₂, hs₁, hs₂, ?_⟩
    · rw [heq₁]
      rw [heq₂]
    · intro hcon
      apply hneq
      have : some u₁.id = some u₂.id := by
        rw [← hu₁', ← hu₂', hcon]
      exact Option.some.inj this

/-- C1 witness: with a stored row of the same hash, size and owner, a repeat
upload inserts nothing, unlinks the fresh file, and reports the existing
row. -/
theorem claim_C1_witness :
    dbRecFix ∈ (storeFilesToDb cfgNoFilter ("9.9.9.9") 200 (some ⟨7⟩) [dbRecFix]
        (fun _ => "H1") [] [infoFix]).existing
    ∧ ("new.png" : String) ∈ (storeFilesToDb cfgNoFilter ("9.9.9.9") 200 (some ⟨7⟩)
        [dbRecFix] (fun _ => "H1") [] [infoFix]).unlinked
    ∧ (storeFilesToDb cfgNoFilter ("9.9.9.9") 200 (some ⟨7⟩) [dbRecFix]
        (fun _ => "H1") [] [infoFix]).files.length = 0 := by
  have h1 := (claim_C1_dedup.1 cfgNoFilter ("9.9.9.9") 200 (some ⟨7⟩) [dbRecFix]
    (fun _ => "H1") [] [infoFix] false infoFix dbRecFix
    (List.mem_singleton.mpr rfl) rfl)
  refine ⟨h1.1, h1.2.1, ?_⟩
  rw [claim_C1_dedup.2.1 cfgNoFilter ("9.9.9.9") 200 (some ⟨7⟩) [dbRecFix]
    (fun _ => "H1") [] [infoFix]]
  rfl

/-- The fuel argument of `decCharsGo` is irrelevant once it exceeds the
input. -/
theorem decCharsGo_congr : ∀ (f g n : ℕ), n < f → n < g →
    decCharsGo f n = decCharsGo g n := by
  intro f
  induction f with
  | zero =>
    intro g n hf
    omega
  | succ f ih =>
    intro g n hf hg
    cases g with
    | zero => omega
    | succ g =>
      simp only [decCharsGo]
      by_cases h : n < 10
      · rw [if_pos h, if_pos h]
      · rw [if_neg h, if_neg h]
        have hd : n / 10 < n := Nat.div_lt_self (by omega) (by omega)
        rw [ih g (n / 10) (by omega) (by omega)]

/-- Unfolding equation of the decimal expansion. -/
theorem decChars_eq (n : ℕ) :
    decChars n = if n < 10 then [Nat.digitChar n]
      else decChars (n / 10) ++ [Nat.digitChar (n % 10)] := by
  have hunf : decCharsGo (n + 1) n = if n < 10 then [Nat.digitChar n]
      else decCharsGo n (n / 10) ++ [Nat.digitChar (n % 10)] := rfl
  unfold decChars
  rw [hunf]
  by_cases h : n < 10
  · rw [if_pos h, if_pos h]
  · rw [if_neg h, if_neg h]
    have hd : n / 10 < n := Nat.div_lt_self (by omega) (by omega)
    rw [decCharsGo_congr n (n / 10 + 1) (n / 10) (by omega) (by omega)]

/-- A decimal expansion has at least one digit. -/
theorem decChars_len_pos (n : ℕ) : 1 ≤ (decChars n).length := by
  rw [decChars_eq]
  by_cases h : n < 10
  · rw [if_pos h]
    simp
  · rw [if_neg h]
    simp

/-- The value is bounded by ten to the number of digits. -/
theorem decChars_lt_pow : ∀ n : ℕ, n < 10 ^ (decChars n).length := by
  intro n
  induction n using Nat.strong_induction_on with
  | _ n ih =>
    rw [decChars_eq]
    by_cases h : n < 10
    · rw [if_pos h]
      simpa using h
    · rw [if_neg h]
      have hd : n / 10 < n := Nat.div_lt_self (by omega) (by omega)
      have hih := ih (n / 10) hd
      have hdm := Nat.div_add_mod n 10
      have hmod : n % 10 < 10 := Nat.mod_lt n (by omega)
      simp only [List.length_append, List.length_cons, List.length_nil]
      rw [pow_succ]
      omega

/-- Digit count bound: a value below `10 ^ w` has at most `w` digits. -/
theorem decChars_len_le : ∀ (w n : ℕ), 1 ≤ w → n < 10 ^ w →
    (decChars n).length ≤ w := by
  intro w
  induction w with
  | zero => omega
  | succ w ih =>
    intro n _ hn
    rw [decChars_eq]
    by_cases h : n < 10
    · rw [if_pos h]
      simp
    · rw [if_neg h]
      have hw : 1 ≤ w := by
        by_contra hw
        have hw0 : w = 0 := by omega
        rw [hw0] at hn
        simp at hn
        omega
      have hdiv : n / 10 < 10 ^ w := by
        rw [Nat.div_lt_iff_lt_mul (by omega)]
        rw [pow_succ] at hn
        exact hn
      have := ih (n / 10) hw hdiv
      simp only [List.length_append, List.length_cons, List.length_nil]
      omega

/-- Digit counts are monotone in the value. -/
theorem decChars_len_mono {m n : ℕ} (h : m ≤ n) :
    (decChars m).length ≤ (decChars n).length := by
  exact decChars_len_le _ m (decChars_len_pos n) (lt_of_le_of_lt h (decChars_lt_pow n))

/-- Zero pads to a run of zero digits. -/
theorem padDigits_zero : ∀ w : ℕ, padDigits w 0 = List.replicate w 0 := by
  intro w
  induction w with
  | zero => rfl
  | succ w ih =>
    simp only [padDigits, Nat.zero_div, Nat.zero_mod, ih, List.replicate_succ]

/-- Peeling the least significant digit off a padded expansion. -/
theorem padDigits_succ_last : ∀ (w n : ℕ), n < 10 ^ (w + 1) →
    padDigits (w + 1) n = padDigits w (n / 10) ++ [n % 10] := by
  intro w
  induction w with
  | zero =>
    intro n hn
    rw [pow_one] at hn
    simp [padDigits, Nat.mod_eq_of_lt hn]
  | succ w ih =>
    intro n hn
    have h1 : (n % 10 ^ (w + 1)) / 10 = n / 10 % 10 ^ w := by
      rw [show (10 : ℕ) ^ (w + 1) = 10 * 10 ^ w from pow_succ' 10 w]
      exact Nat.mod_mul_right_div_self n 10 (10 ^ w)
    have h2 : (n % 10 ^ (w + 1)) % 10 = n % 10 :=
      Nat.mod_mod_of_dvd n (dvd_pow_self 10 (Nat.succ_ne_zero w))
    have h3 : n / 10 ^ (w + 1) = n / 10 / 10 ^ w := by
      rw [Nat.div_div_eq_div_mul, pow_succ' 10 w]
    have h4 : n % 10 ^ (w + 1) < 10 ^ (w + 1) := Nat.mod_lt n (pow_pos (by omega) _)
    calc padDigits (w + 1 + 1) n
        = n / 10 ^ (w + 1) :: padDigits (w + 1) (n % 10 ^ (w + 1)) := rfl
      _ = n / 10 ^ (w + 1) :: (padDigits w ((n % 10 ^ (w + 1)) / 10)
            ++ [(n % 10 ^ (w + 1)) % 10]) := by rw [ih _ h4]
      _ = n / 10 / 10 ^ w :: (padDigits w (n / 10 % 10 ^ w) ++ [n % 10]) := by
            rw [h1, h2, h3]
      _ = padDigits (w + 1) (n / 10) ++ [n % 10] := rfl

/-- The zero-padded decimal string is the digit-character image of the padded
digit expansion. -/
theorem pad_map_digitChar : ∀ (w n : ℕ), (decChars n).length ≤ w →
    List.replicate (w - (decChars n).length) '0' ++ decChars n
      = (padDigits w n).map Nat.digitChar := by
  intro w
  induction w with
  | zero =>
    intro n hn
    have := decChars_len_pos n
    omega
  | succ w ih =>
    intro n hn
    by_cases h : n < 10
    · have hdec : decChars n = [Nat.digitChar n] := by
        rw [decChars_eq, if_pos h]
      have hpow : n < 10 ^ (w + 1) := by
        have h10 : (10 : ℕ) ^ 1 ≤ 10 ^ (w + 1) := Nat.pow_le_pow_right (by omega) (by omega)
        rw [pow_one] at h10
        omega
      rw [padDigits_succ_last w n hpow, Nat.div_eq_of_lt h, Nat.mod_eq_of_lt h,
        padDigits_zero, hdec]
      simp only [List.length_cons, List.length_nil, List.map_append,
        List.map_replicate, List.map_cons, List.map_nil]
      congr 1
    · have hdec : decChars n = decChars (n / 10) ++ [Nat.digitChar (n % 10)] := by
        rw [decChars_eq, if_neg h]
      have hlen : (decChars n).length = (decChars (n / 10)).length + 1 := by
        rw [hdec]
        simp
      have hL : (decChars (n / 10)).length ≤ w := by omega
      have hpow : n < 10 ^ (w + 1) := by
        have h1 := decChars_lt_pow n
        have h10 : (10 : ℕ) ^ (decChars n).length ≤ 10 ^ (w + 1) :=
          Nat.pow_le_pow_right (by omega) hn
        omega
      rw [hlen, hdec, padDigits_succ_last w n hpow, List.map_append, ← ih (n / 10) hL]
      rw [show w + 1 - ((decChars (n / 10)).length + 1) = w - (decChars (n / 10)).length
        from by omega]
      simp [List.append_assoc]

/-- Digit characters are strictly monotone on decimal digits. -/
theorem digitChar_mono : ∀ b < 10, ∀ a < b, Nat.digitChar a < Nat.digitChar b := by
  decide

/-- Equal-width zero-padded decimal strings compare lexicographically like
their values. -/
theorem padDigits_lex : ∀ (w i j : ℕ), i < j → j < 10 ^ w →
    lexLtChars ((padDigits w i).map Nat.digitChar)
      ((padDigits w j).map Nat.digitChar) = true := by
  intro w
  induction w with
  | zero =>
    intro i j hij hj
    simp at hj
    omega
  | succ w ih =>
    intro i j hij hj
    have hle : i / 10 ^ w ≤ j / 10 ^ w := Nat.div_le_div_right (le_of_lt hij)
    have hjlt : j / 10 ^ w < 10 := by
      rw [Nat.div_lt_iff_lt_mul (pow_pos (by omega) w)]
      rw [pow_succ] at hj
      omega
    simp only [padDigits, List.map_cons]
    rcases lt_or_eq_of_le hle with hlt | heq
    · have hchar := digitChar_mono (j / 10 ^ w) hjlt (i / 10 ^ w) hlt
      simp only [lexLtChars]
      rw [if_pos hchar]
    · have hchar : Nat.digitChar (i / 10 ^ w) = Nat.digitChar (j / 10 ^ w) := by
        rw [heq]
      have hdm₁ := Nat.div_add_mod i (10 ^ w)
      have hdm₂ := Nat.div_add_mod j (10 ^ w)
      have hij' : i % 10 ^ w < j % 10 ^ w := by
        have h10 : (10 : ℕ) ^ w * (i / 10 ^ w) = 10 ^ w * (j / 10 ^ w) := by rw [heq]
        omega
      have hj' : j % 10 ^ w < 10 ^ w := Nat.mod_lt j (pow_pos (by omega) w)
      have htail := ih (i % 10 ^ w) (j % 10 ^ w) hij' hj'
      simp only [lexLtChars, hchar]
      rw [if_neg (lt_irrefl _), if_neg (lt_irrefl _)]
      exact htail

theorem lexLtChars_irrefl : ∀ l : List Char, lexLtChars l l = false := by
  intro l
  induction l with
  | nil => rfl
  | cons c t ih =>
    simp only [lexLtChars]
    rw [if_neg (lt_irrefl c), if_neg (lt_irrefl c)]
    exact ih

theorem lexLtChars_trans : ∀ a b c : List Char, lexLtChars a b = true →
    lexLtChars b c = true → lexLtChars a c = true := by
  intro a
  induction a with
  | nil =>
    intro b c hab hbc
    cases b with
    | nil => simp [lexLtChars] at hab
    | cons y ys =>
      cases c with
      | nil => simp [lexLtChars] at hbc
      | cons z zs => rfl
  | cons x xs ih =>
    intro b c hab hbc
    cases b with
    | nil => simp [lexLtChars] at hab
    | cons y ys =>
      cases c with
      | nil => simp [lexLtChars] at hbc
      | cons z zs =>
        simp only [lexLtChars] at hab hbc ⊢
        by_cases hxy : x < y
        · by_cases hyz : y < z
          · rw [if_pos (lt_trans hxy hyz)]
          · rw [if_neg hyz] at hbc
            by_cases hzy : z < y
            · rw [if_pos hzy] at hbc
              exact absurd hbc (by simp)
            · have hyz' : y = z := le_antisymm (le_of_not_lt hzy) (le_of_not_lt hyz)
              rw [if_pos (lt_of_lt_of_le hxy (le_of_eq hyz'))]
        · rw [if_neg hxy] at hab
          by_cases hyx : y < x
          · rw [if_pos hyx] at hab
            exact absurd hab (by simp)
          · rw [if_neg hyx] at hab
            have hxy' : x = y := le_antisymm (le_of_not_lt hyx) (le_of_not_lt hxy)
            by_cases hyz : y < z
            · rw [if_pos (lt_of_le_of_lt (le_of_eq hxy') hyz)]
            · rw [if_neg hyz] at hbc
              by_cases hzy : z < y
              · rw [if_pos hzy] at hbc
                exact absurd hbc (by simp)
              · rw [if_neg hzy] at hbc
                have hyz' : y = z := le_antisymm (le_of_not_lt hzy) (le_of_not_lt hyz)
                have hxz' : x = z := hxy'.trans hyz'
                have hn1 : ¬x < z := by
                  rw [hxz']
                  exact lt_irrefl z
                have hn2 : ¬z < x := by
                  rw [hxz']
                  exact lt_irrefl z
                rw [if_neg hn1, if_neg hn2]
                exact ih ys zs hab hbc

theorem lexLtChars_asymm : ∀ a b : List Char,
    lexLtChars a b = true → lexLtChars b a = false := by
  intro a b hab
  cases hba : lexLtChars b a
  · rfl
  · have h := lexLtChars_trans a b a hab hba
    rw [lexLtChars_irrefl] at h
    exact absurd h (by simp)

theorem lexLtChars_eq_of_not : ∀ a b : List Char, lexLtChars a b = false →
    lexLtChars b a = false → a = b := by
  intro a
  induction a with
  | nil =>
    intro b h1 _
    cases b with
    | nil => rfl
    | cons y ys => simp [lexLtChars] at h1
  | cons x xs ih =>
    intro b h1 h2
    cases b with
    | nil => simp [lexLtChars] at h2
    | cons y ys =>
      simp only [lexLtChars] at h1 h2
      by_cases hxy : x < y
      · rw [if_pos hxy] at h1
        exact absurd h1 (by simp)
      · rw [if_neg hxy] at h1
        by_cases hyx : y < x
        · rw [if_pos hyx] at h2
          exact absurd h2 (by simp)
        · rw [if_neg hyx] at h1
          rw [if_neg hyx, if_neg hxy] at h2
          have hxy' : x = y := le_antisymm (le_of_not_lt hyx) (le_of_not_lt hxy)
          rw [hxy', ih ys h1 h2]

theorem jsLeb_total : ∀ a b : String, (jsLeb a b || jsLeb b a) = true := by
  intro a b
  unfold jsLeb jsLtb
  cases h : lexLtChars b.data a.data
  · simp
  · rw [lexLtChars_asymm _ _ h]
    simp

theorem jsLeb_trans' : ∀ a b c : String,
    jsLeb a b = true → jsLeb b c = true → jsLeb a c = true := by
  intro a b c hab hbc
  unfold jsLeb jsLtb at hab hbc ⊢
  simp only [Bool.not_eq_true'] at hab hbc ⊢
  cases hca : lexLtChars c.data a.data
  · rfl
  · exfalso
    by_cases h2 : lexLtChars a.data b.data = true
    · have h3 := lexLtChars_trans _ _ _ hca h2
      rw [hbc] at h3
      exact absurd h3 (by simp)
    · have hax : lexLtChars a.data b.data = false := by
        cases h : lexLtChars a.data b.data
        · rfl
        · exact absurd h h2
      have heq : a.data = b.data := lexLtChars_eq_of_not _ _ hax hab
      rw [heq] at hca
      rw [hbc] at hca
      exact absurd hca (by simp)

theorem jsLeb_antisymm : ∀ a b : String,
    jsLeb a b = true → jsLeb b a = true → a = b := by
  intro a b hab hba
  unfold jsLeb jsLtb at hab hba
  simp only [Bool.not_eq_true'] at hab hba
  exact String.ext (lexLtChars_eq_of_not a.data b.data hba hab)

/-- Dropping down to the padded tail of a zero-extended string. -/
theorem drop_pad (w : ℕ) (l : List Char) (hl : l.length ≤ w) :
    (List.replicate w '0' ++ l).drop ((List.replicate w '0' ++ l).length - w)
      = List.replicate (w - l.length) '0' ++ l := by
  have hlen : (List.replicate w '0' ++ l).length = w + l.length := by simp
  rw [hlen, show w + l.length - w = l.length from by omega,
    List.drop_append_of_le_length (by simpa using hl), List.drop_replicate]

/-- The fragment name of index `i` in a session of `k` chunks is the
zero-padded decimal of `i`, width the digit count of `k - 1`. -/
theorem chunkFilename_eq_zeroPad (k i : ℕ) (hk : 1 ≤ k) (hik : i < k) :
    chunkFilename (some k) (decStr i) = zeroPad ((decChars (k - 1)).length) i := by
  have hmono : (decChars i).length ≤ (decChars (k - 1)).length :=
    decChars_len_mono (by omega)
  have h1 : chunkFilename (some k) (decStr i)
      = String.mk ((List.replicate ((decChars (k - 1)).length) '0' ++ decChars i).drop
        ((List.replicate ((decChars (k - 1)).length) '0' ++ decChars i).length
          - (decChars (k - 1)).length)) := rfl
  rw [h1, drop_pad _ _ hmono]
  rfl

/-- Without a total chunk count the padding width is 1, so single-digit
indices name themselves. -/
theorem chunkFilename_none (i : ℕ) (h : i < 10) :
    chunkFilename none (decStr i) = decStr i := by
  have hdec : decChars i = [Nat.digitChar i] := by
    rw [decChars_eq, if_pos h]
  have h1 : chunkFilename none (decStr i)
      = String.mk ((List.replicate 1 '0' ++ decChars i).drop
        ((List.replicate 1 '0' ++ decChars i).length - 1)) := rfl
  rw [h1, hdec]
  unfold decStr
  rw [hdec]
  rfl

/-- Fragment names of one session compare strictly in index order. -/
theorem chunkFilename_strict (k i j : ℕ) (hij : i < j) (hjk : j < k) :
    jsLtb (chunkFilename (some k) (decStr i)) (chunkFilename (some k) (decStr j))
      = true := by
  have hk : 1 ≤ k := by omega
  rw [chunkFilename_eq_zeroPad k i hk (by omega), chunkFilename_eq_zeroPad k j hk hjk]
  have hLi : (decChars i).length ≤ (decChars (k - 1)).length := decChars_len_mono (by omega)
  have hLj : (decChars j).length ≤ (decChars (k - 1)).length := decChars_len_mono (by omega)
  have hdata : jsLtb (zeroPad ((decChars (k - 1)).length) i)
      (zeroPad ((decChars (k - 1)).length) j)
      = lexLtChars
        (List.replicate ((decChars (k - 1)).length - (decChars i).length) '0' ++ decChars i)
        (List.replicate ((decChars (k - 1)).length - (decChars j).length) '0'
          ++ decChars j) := rfl
  rw [hdata, pad_map_digitChar _ i hLi, pad_map_digitChar _ j hLj]
  exact padDigits_lex _ i j hij
    (lt_of_le_of_lt (show j ≤ k - 1 from by omega) (decChars_lt_pow (k - 1)))

/-- Reassembly invariance: any arrival-order permutation of the index-named
fragments combines into the strict index-order concatenation. -/
theorem combine_perm (k : ℕ) (content : String → List ℕ) (arrival : List String)
    (hp : arrival.Perm ((List.range k).map (fun i => chunkFilename (some k) (decStr i)))) :
    combineChunks arrival content = concatInIndexOrder k content := by
  have hperm : (jsSortStrings arrival).Perm
      ((List.range k).map (fun i => chunkFilename (some k) (decStr i))) :=
    (List.perm_insertionSort _ arrival).trans hp
  haveI htr : IsTrans String (fun a b => jsLeb a b = true) :=
    ⟨fun a b c => jsLeb_trans' a b c⟩
  haveI htot : IsTotal String (fun a b => jsLeb a b = true) :=
    ⟨fun a b => (Bool.or_eq_true _ _).mp (jsLeb_total a b)⟩
  haveI hanti : IsAntisymm String (fun a b => jsLeb a b = true) := ⟨jsLeb_antisymm⟩
  have hsorted : List.Sorted (fun a b => jsLeb a b = true) (jsSortStrings arrival) :=
    List.sorted_insertionSort _ arrival
  have htgt : List.Sorted (fun a b => jsLeb a b = true)
      ((List.range k).map (fun i => chunkFilename (some k) (decStr i))) := by
    apply List.pairwise_iff_getElem.mpr
    intro i j hi hj hij
    simp only [List.length_map, List.length_range] at hi hj
    simp only [List.getElem_map, List.getElem_range]
    have hstrict := chunkFilename_strict k i j hij hj
    unfold jsLeb
    rw [show jsLtb (chunkFilename (some k) (decStr j)) (chunkFilename (some k) (decStr i))
        = lexLtChars (chunkFilename (some k) (decStr j)).data
          (chunkFilename (some k) (decStr i)).data from rfl]
    rw [lexLtChars_asymm _ _ hstrict]
    rfl
  have heq : jsSortStrings arrival
      = (List.range k).map (fun i => chunkFilename (some k) (decStr i)) :=
    List.eq_of_perm_of_sorted hperm hsorted htgt
  unfold combineChunks concatInIndexOrder
  rw [heq, List.foldl_map]

/-- C2: a fragment labelled with index `i` is stored under the zero-padded
decimal name of width `digit count of totalChunks - 1` (width 1 when the
total count is absent), and combining — lexicographic sort plus sequential
append — reproduces the payload concatenation in strict numeric index order
whatever the arrival order was. -/
theorem claim_C2_fragment_names_and_reassembly :
    (∀ k i, 1 ≤ k → i < k →
      chunkFilename (some k) (decStr i) = zeroPad ((decChars (k - 1)).length) i)
    ∧ (∀ i, i < 10 → chunkFilename none (decStr i) = decStr i)
    ∧ (∀ (k : ℕ) (content : String → List ℕ) (arrival : List String),
      arrival.Perm ((List.range k).map (fun i => chunkFilename (some k) (decStr i))) →
      combineChunks arrival content = concatInIndexOrder k content) :=
  ⟨fun k i hk hik => chunkFilename_eq_zeroPad k i hk hik,
   fun i h => chunkFilename_none i h,
   fun k content arrival hp => combine_perm k content arrival hp⟩

/-- C2 witness: index 3 of 12 chunks is named `03`; a session of 3 fragments
arriving as `2, 0, 1` still combines into payload order `0, 1, 2`. -/
theorem claim_C2_witness :
    chunkFilename (some 12) (decStr 3) = zeroPad 2 3
    ∧ chunkFilename none (decStr 7) = decStr 7
    ∧ combineChunks ["2", "0", "1"] contentFix = concatInIndexOrder 3 contentFix := by
  refine ⟨?_, claim_C2_fragment_names_and_reassembly.2.1 7 (by omega), ?_⟩
  · exact claim_C2_fragment_names_and_reassembly.1 12 3 (by omega) (by omega)
  · exact claim_C2_fragment_names_and_reassembly.2.2 3 contentFix ["2", "0", "1"]
      (by decide)

theorem matchDateRegex_jan :
    matchDateRegex (String.data ("2020/01/01"))
      = some { gy := some 2020, gmo := some 1, gd := some 1,
               gh := none, gmi := none, gs := none } := by
  decide

theorem matchDateRegex_feb :
    matchDateRegex (String.data ("2020/02/01"))
      = some { gy := some 2020, gmo := some 2, gd := some 1,
               gh := none, gmi := none, gs := none } := by
  decide

theorem daysBefore2020 : daysBeforeYear 2020 = 18262 := by decide

/-- Parsing `2020/01/01` keeps the current wall-clock time of day: the
result is midnight of that day plus the time of day of `now`. -/
theorem parseDate_jan (now : CivilTime) :
    parseDate 0 0 now true ("2020/01/01")
      = some ((1577836800 + (timeOfDaySec now : ℤ)) * 1000) := by
  unfold parseDate
  rw [matchDateRegex_jan]
  dsimp only
  rw [if_pos rfl]
  unfold toEpochMs timeOfDaySec
  dsimp only
  rw [daysBefore2020]
  rw [show daysBeforeMonth 2020 1 = 0 from rfl]
  push_cast
  ring

/-- Parsing `2020/02/01` likewise. -/
theorem parseDate_feb (now : CivilTime) :
    parseDate 0 0 now true ("2020/02/01")
      = some ((1580515200 + (timeOfDaySec now : ℤ)) * 1000) := by
  unfold parseDate
  rw [matchDateRegex_feb]
  dsimp only
  rw [if_pos rfl]
  unfold toEpochMs timeOfDaySec
  dsimp only
  rw [daysBefore2020]
  rw [show daysBeforeMonth 2020 2 = 31 from by decide]
  push_cast
  ring

theorem jsFloorDiv1000_mul (x : ℤ) : jsFloorDiv1000 (x * 1000) = x := by
  unfold jsFloorDiv1000
  exact Int.mul_fdiv_cancel x (by norm_num)

theorem jsCeilDiv1000_mul (x : ℤ) : jsCeilDiv1000 (x * 1000) = x := by
  unfold jsCeilDiv1000
  rw [← neg_mul, Int.mul_fdiv_cancel _ (by norm_num), neg_neg]

/-- C7 (amended): the example filter translates to ip inclusions
`["10.0.0.1"]`, no NULL-ip flag, ordering `timestamp desc`, and a date range
of `[1577836800 + t, 1580515200 + t]` where `t` is the wall-clock time of
day (in seconds) at translation time — the midnight values claimed by the
spec arise exactly when translation happens at midnight, because `parseDate`
leaves unspecified time components at the current time instead of resetting
them. -/
theorem claim_C7_filter_translation (now : CivilTime) :
    translateFilters 0 0 now [] exampleQueries
      = Except.ok
          { uploaders := [], excludeUploaders := [],
            ipQuery := some ["10.0.0.1"], excludeIpQuery := some ["-"],
            noip := false, nouser := false,
            dateRange := some (some (1577836800 + (timeOfDaySec now : ℤ)),
              some (1580515200 + (timeOfDaySec now : ℤ))),
            expiryRange := none, textQuery := none, excludeTextQuery := none,
            orderbyParsed := ["timestamp desc"] } := by
  unfold translateFilters
  dsimp only [exampleQueries]
  rw [show extractDash (uniqueFirst ["10.0.0.1"]) = (false, ["10.0.0.1"]) from by decide]
  simp [parseDate_jan, parseDate_feb, jsFloorDiv1000_mul, jsCeilDiv1000_mul]
  rfl

/-- C7 counterexample: translating at wall-clock time 08:30:15 yields date
endpoints `1577867415` and `1580545815`, not the claimed `1577836800` and
`1580515200`. -/
theorem claim_C7_counterexample :
    translateFilters 0 0 ⟨2023, 5, 10, 8, 30, 15, 250⟩ [] exampleQueries
      = Except.ok ⟨[], [], some ["10.0.0.1"], some ["-"], false, false,
          some (some 1577867415, some 1580545815), none, none, none,
          ["timestamp desc"]⟩
    ∧ (1577867415 : ℤ) ≠ 1577836800 := ⟨rfl, by decide⟩

theorem uniqueFirst_go_mem : ∀ (l acc : List String) (x : String),
    (x ∈ l.foldl (fun acc v => if acc.contains v then acc else acc ++ [v]) acc)
      ↔ x ∈ acc ∨ x ∈ l := by
  intro l
  induction l with
  | nil =>
    intro acc x
    simp
  | cons v t ih =>
    intro acc x
    rw [List.foldl_cons, ih]
    by_cases hc : acc.contains v = true
    · rw [if_pos hc]
      have hv : v ∈ acc := by simpa using hc
      rw [List.mem_cons]
      constructor
      · rintro (h | h)
        · exact Or.inl h
        · exact Or.inr (Or.inr h)
      · rintro (h | h | h)
        · exact Or.inl h
        · exact Or.inl (h ▸ hv)
        · exact Or.inr h
    · rw [if_neg hc]
      simp [List.mem_append, List.mem_cons, or_assoc]

theorem mem_uniqueFirst (l : List String) (x : String) :
    x ∈ uniqueFirst l ↔ x ∈ l := by
  unfold uniqueFirst
  rw [uniqueFirst_go_mem]
  simp

/-- C8 (amended): translation fails — with an error naming exactly the
supplied usernames that match no row — whenever at least one supplied
username matches no account; when every supplied username matches an account
and no username is supplied more than once across the two keyword lists,
translation succeeds and partitions the matched accounts by supplying
keyword.  (A username supplied through both keywords at once also fails the
row-count check, which is what the counterexample exhibits.) -/
theorem claim_C8_user_resolution (tz mo : ℤ) (now : CivilTime)
    (usersTable : List (ℕ × String)) (q : ParsedQueries) (incl excl : List String)
    (hq1 : q.quser = some incl) (hq2 : q.excludeUser = some excl)
    (hdash : incl.contains ("-") = false)
    (htable : (usersTable.map Prod.snd).Nodup) :
    ((∃ un ∈ uniqueFirst incl ++ excl, ∀ row ∈ usersTable, row.2 ≠ un) →
      translateFilters tz mo now usersTable q
        = Except.error (usersNotFoundMsg ((uniqueFirst incl ++ excl).filter
            (fun un => !(usersTable.any (fun (r : ℕ × String) => r.2 == un))))))
    ∧ ((∀ un ∈ uniqueFirst incl ++ excl, ∃ row ∈ usersTable, row.2 = un) →
      (uniqueFirst incl ++ excl).Nodup →
      ∃ fo, translateFilters tz mo now usersTable q = Except.ok fo
        ∧ fo.uploaders = usersTable.filter (fun (r : ℕ × String) =>
            (uniqueFirst incl).contains r.2)
        ∧ fo.excludeUploaders = usersTable.filter (fun (r : ℕ × String) =>
            excl.contains r.2)) := by
  have hnm' : ("-" : String) ∉ uniqueFirst incl := by
    rw [mem_uniqueFirst]
    simpa using hdash
  have hext : extractDash (uniqueFirst incl) = (false, uniqueFirst incl) := by
    unfold extractDash
    rw [if_neg (by simpa using hnm')]
  have hsubl : ((usersTable.filter (fun (r : ℕ × String) =>
      (uniqueFirst incl ++ excl).contains r.2)).map Prod.snd).Nodup :=
    ((List.filter_sublist usersTable).map Prod.snd).nodup htable
  have hAmem : ∀ x, (x ∈ (usersTable.filter (fun (r : ℕ × String) =>
      (uniqueFirst incl ++ excl).contains r.2)).map Prod.snd)
      ↔ (∃ r ∈ usersTable, r.2 = x) ∧ x ∈ uniqueFirst incl ++ excl := by
    intro x
    simp only [List.mem_map, List.mem_filter]
    constructor
    · rintro ⟨r, ⟨hr, hc⟩, hrx⟩
      subst hrx
      exact ⟨⟨r, hr, rfl⟩, by simpa using hc⟩
    · rintro ⟨⟨r, hr, hrx⟩, hx⟩
      refine ⟨r, ⟨hr, ?_⟩, hrx⟩
      rw [hrx]
      simpa using hx
  constructor
  · rintro ⟨un₀, hun₀, hnomatch⟩
    have hcount : (usersTable.filter (fun (r : ℕ × String) =>
        (uniqueFirst incl ++ excl).contains r.2)).length
        ≠ (uniqueFirst incl ++ excl).length := by
      have hAsub : ((usersTable.filter (fun (r : ℕ × String) =>
          (uniqueFirst incl ++ excl).contains r.2)).map Prod.snd)
          ⊆ (uniqueFirst incl ++ excl).dedup.erase un₀ := by
        intro x hx
        obtain ⟨⟨r, hr, hrx⟩, hxusr⟩ := (hAmem x).mp hx
        have hxne : x ≠ un₀ := by
          intro hcon
          exact hnomatch r hr (by rw [hrx, hcon])
        rw [List.mem_erase_of_ne hxne]
        exact List.mem_dedup.mpr hxusr
      have hAlen := (List.subperm_of_subset hsubl hAsub).length_le
      have hErase : ((uniqueFirst incl ++ excl).dedup.erase un₀).length
          = (uniqueFirst incl ++ excl).dedup.length - 1 :=
        List.length_erase_of_mem (List.mem_dedup.mpr hun₀)
      have hDedup := (List.dedup_sublist (uniqueFirst incl ++ excl)).length_le
      have hdpos : 1 ≤ (uniqueFirst incl ++ excl).dedup.length :=
        List.length_pos.mpr (List.ne_nil_of_mem (List.mem_dedup.mpr hun₀))
      have hlenA : (usersTable.filter (fun (r : ℕ × String) =>
          (uniqueFirst incl ++ excl).contains r.2)).length
          = ((usersTable.filter (fun (r : ℕ × String) =>
              (uniqueFirst incl ++ excl).contains r.2)).map Prod.snd).length :=
        (List.length_map _ _).symm
      omega
    unfold translateFilters
    rw [hq1, hq2]
    dsimp only
    rw [hext]
    dsimp only
    simp only [Option.getD_some]
    rw [if_pos hcount]
    have hfil : ((uniqueFirst incl ++ excl).filter
        (fun un => !((usersTable.filter (fun (u : ℕ × String) =>
          (uniqueFirst incl ++ excl).contains u.2)).any
            (fun up => up.2 == un))))
        = ((uniqueFirst incl ++ excl).filter
            (fun un => !(usersTable.any (fun (r : ℕ × String) => r.2 == un)))) := by
      apply List.filter_congr
      intro un hun
      have hany : ((usersTable.filter (fun (u : ℕ × String) =>
          (uniqueFirst incl ++ excl).contains u.2)).any (fun up => up.2 == un))
          = usersTable.any (fun (r : ℕ × String) => r.2 == un) := by
        rw [Bool.eq_iff_iff]
        simp only [List.any_eq_true, List.mem_filter]
        constructor
        · rintro ⟨r, ⟨hr, _⟩, hru⟩
          exact ⟨r, hr, hru⟩
        · rintro ⟨r, hr, hru⟩
          refine ⟨r, ⟨hr, ?_⟩, hru⟩
          have hr2 : r.2 = un := by simpa using hru
          rw [hr2]
          simpa using hun
      rw [hany]
    rw [hfil]
  · intro hall hnd
    have hperm : (((usersTable.filter (fun (r : ℕ × String) =>
        (uniqueFirst incl ++ excl).contains r.2)).map Prod.snd)).Perm
        (uniqueFirst incl ++ excl) := by
      rw [List.perm_ext_iff_of_nodup hsubl hnd]
      intro x
      rw [hAmem x]
      constructor
      · rintro ⟨_, hx⟩
        exact hx
      · intro hx
        exact ⟨hall x hx, hx⟩
    have hlen : (usersTable.filter (fun (r : ℕ × String) =>
        (uniqueFirst incl ++ excl).contains r.2)).length
        = (uniqueFirst incl ++ excl).length := by
      have h := hperm.length_eq
      simpa [List.length_map] using h
    have hdisj : ∀ x, x ∈ uniqueFirst incl → x ∉ excl := by
      have h := (List.nodup_append.mp hnd).2.2
      intro x hx
      exact h hx
    unfold translateFilters
    rw [hq1, hq2]
    dsimp only
    rw [hext]
    dsimp only
    simp only [Option.getD_some]
    rw [if_neg (not_ne_iff.mpr hlen)]
    refine ⟨_, rfl, ?_, ?_⟩
    · dsimp only
      rw [List.filter_filter]
      apply List.filter_congr
      intro a _
      cases hc : (uniqueFirst incl).contains a.2
      · rw [Bool.false_and]
      · rw [Bool.true_and]
        have hm : a.2 ∈ uniqueFirst incl := by simpa using hc
        simpa using List.mem_append_left excl hm
    · dsimp only
      rw [List.filter_filter]
      apply List.filter_congr
      intro a _
      have happ : (uniqueFirst incl ++ excl).contains a.2
          = ((uniqueFirst incl).contains a.2 || excl.contains a.2) := by
        rw [Bool.eq_iff_iff]
        simp [List.mem_append]
      rw [happ]
      cases hc : (uniqueFirst incl).contains a.2
      · simp
      · have hm : a.2 ∈ uniqueFirst incl := by simpa using hc
        have hb : excl.contains a.2 = false := by simpa using hdisj a.2 hm
        rw [hb]
        simp

/-- C8 counterexample: `user:alice -user:alice` with the account `alice`
present — every supplied username matches an account, yet translation fails
(the row count 1 differs from the 2 supplied entries), and the error names
no username at all. -/
theorem claim_C8_counterexample :
    translateFilters 0 0 ⟨2023, 5, 10, 0, 0, 0, 0⟩ [(1, "alice")]
      { exampleQueries with quser := some ["alice"], excludeUser := some ["alice"] }
      = Except.error ("Users not found: .")
    ∧ (["alice", "alice"].all (fun un => [((1 : ℕ), "alice")].any
        (fun (r : ℕ × String) => r.2 == un))) = true := ⟨rfl, by decide⟩

/-- C8 witness: distinct matched usernames partition into uploaders and
excluded uploaders; an unmatched username aborts with the error naming it. -/
theorem claim_C8_witness :
    (∃ fo, translateFilters 0 0 ⟨2023, 5, 10, 0, 0, 0, 0⟩ [(1, "alice"), (2, "bob")]
        { exampleQueries with quser := some ["alice"], excludeUser := some ["bob"] }
        = Except.ok fo
      ∧ fo.uploaders = [(1, "alice")]
      ∧ fo.excludeUploaders = [(2, "bob")])
    ∧ translateFilters 0 0 ⟨2023, 5, 10, 0, 0, 0, 0⟩ [(1, "alice")]
        { exampleQueries with quser := some ["alice"], excludeUser := some ["carol"] }
        = Except.error (usersNotFoundMsg ["carol"]) := by
  constructor
  · obtain ⟨fo, hok, hu, he⟩ :=
      (claim_C8_user_resolution 0 0 ⟨2023, 5, 10, 0, 0, 0, 0⟩ [(1, "alice"), (2, "bob")]
        { exampleQueries with quser := some ["alice"], excludeUser := some ["bob"] }
        ["alice"] ["bob"] rfl rfl (by decide) (by decide)).2
        (by decide) (by decide)
    refine ⟨fo, hok, ?_, ?_⟩
    · rw [hu]
      decide
    · rw [he]
      decide
  · have h2 :=
      (claim_C8_user_resolution 0 0 ⟨2023, 5, 10, 0, 0, 0, 0⟩ [(1, "alice")]
        { exampleQueries with quser := some ["alice"], excludeUser := some ["carol"] }
        ["alice"] ["carol"] rfl rfl (by decide) (by decide)).1
        ⟨"carol", by decide, by decide⟩
    exact h2.trans
      (congrArg (fun l => Except.error (usersNotFoundMsg l)) (by decide))

/-- C9: the `expiry` range with a non-numeric upper endpoint constrains
`expirydate` by the `date` range's `from` endpoint (line 963 reads
`filterObj.queries.date.from`), and with no `date` range supplied that read
is a TypeError — the code never uses the expiry range's own `from` there. -/
theorem claim_C9_expiry_clause_bug :
    dateExpiryWhere (some (some 50, some 60)) (some (some 100, none))
      = Except.ok [WhereClause.whereBetween ("timestamp") (some 50) (some 60),
          WhereClause.whereGe ("expirydate") (some 50)]
    ∧ dateExpiryWhere none (some (some 100, none))
      = Except.error ("TypeError: cannot read properties of undefined") := ⟨rfl, rfl⟩

end Upload
